import Mathlib

set_option maxRecDepth 100000

/-!
Verification development for the TOCSEA coastal soil-erosion frontend
(`script.js` and its sibling rewrites).  The recommendation-extraction
pipeline of the source operates on JavaScript strings; we model a
JavaScript string as its list of UTF-16 code units (`JStr`), which is the
unit of all JavaScript string and regular-expression operations in the
source (none of the source regexes use the `u` flag, so character classes,
`.` and lengths all act on code units).  The source's regular expressions
are embedded literally as `RE` syntax trees and executed by a backtracking
matcher with ECMAScript semantics (leftmost match, ordered alternation,
greedy/lazy quantifiers, capture groups, lookahead).
-/

/-- A JavaScript string: its sequence of UTF-16 code units. -/
abbrev JStr := List Nat

/-- UTF-16 encoding of a single Unicode code point. -/
def utf16Enc (c : Nat) : List Nat :=
  if c < 0x10000 then [c]
  else [0xD800 + (c - 0x10000) / 0x400, 0xDC00 + (c - 0x10000) % 0x400]

/-- The JavaScript string denoted by a Lean string literal. -/
def jstr (s : String) : JStr := (s.data.map Char.toNat).flatMap utf16Enc

/-- The apostrophe code unit, U+0027 (kept out of string literals). -/
def apo : JStr := [39]

/-- ECMAScript white space and line terminators: the set matched by `\s`
and stripped by `String.prototype.trim`. -/
def isJsWhite (c : Nat) : Bool :=
  c == 0x09 || c == 0x0A || c == 0x0B || c == 0x0C || c == 0x0D || c == 0x20 ||
  c == 0xA0 || c == 0x1680 || (0x2000 ≤ c && c ≤ 0x200A) || c == 0x2028 ||
  c == 0x2029 || c == 0x202F || c == 0x205F || c == 0x3000 || c == 0xFEFF

/-- The class `\d` (ASCII decimal digits). -/
def isDigitU (c : Nat) : Bool := 0x30 ≤ c && c ≤ 0x39

/-- The class `[a-zA-Z]`. -/
def isAsciiAlpha (c : Nat) : Bool := (0x41 ≤ c && c ≤ 0x5A) || (0x61 ≤ c && c ≤ 0x7A)

/-- `String.prototype.toLowerCase`, restricted to the ASCII range that the
source's lookup keys and vocabulary use (other code units are unchanged). -/
def toLowerU (c : Nat) : Nat := if 0x41 ≤ c && c ≤ 0x5A then c + 0x20 else c

/-- `s.toLowerCase()`. -/
def lowerJs (s : JStr) : JStr := s.map toLowerU

/-- `s.trim()`: strips ECMAScript white space from both ends
(`List.rdropWhile p l` is `(l.reverse.dropWhile p).reverse`). -/
def trimJs (s : JStr) : JStr := List.rdropWhile isJsWhite (s.dropWhile isJsWhite)

/-- Does `s` start with `pat`? (`String.prototype.startsWith`). -/
def hasPre : JStr → JStr → Bool
  | [], _ => true
  | _ :: _, [] => false
  | p :: ps, c :: cs => p == c && hasPre ps cs

/-- `s.includes(pat)`: does `pat` occur as a contiguous segment of `s`? -/
def containsSeg : JStr → JStr → Bool
  | [], pat => pat.isEmpty
  | s@(_ :: rest), pat => hasPre pat s || containsSeg rest pat

/-- `s.split('\n')`. -/
def splitNl : JStr → List JStr
  | [] => [[]]
  | c :: rest =>
    if c == 0x0A then [] :: splitNl rest
    else
      match splitNl rest with
      | h :: t => (c :: h) :: t
      | [] => [[c]]

/-- `lines.join('\n')`. -/
def joinNl : List JStr → JStr
  | [] => []
  | [l] => l
  | l :: ls => l ++ 0x0A :: joinNl ls

/-- `s.replace(/[class]/g, t)` for a single-unit character class: every unit
in the class is replaced by the unit `t`. -/
def replClass (p : Nat → Bool) (t : Nat) (s : JStr) : JStr :=
  s.map fun c => if p c then t else c

/-- `s.replace(/[class]/g, '')` for a single-unit character class. -/
def removeClass (p : Nat → Bool) (s : JStr) : JStr := s.filter fun c => !(p c)

/-- The run-tracking core of `collapseClass`: `inRun` records whether the
previous unit belonged to the class (so the current run already emitted
its space). -/
def collapseGo (p : Nat → Bool) : Bool → JStr → JStr
  | _, [] => []
  | inRun, c :: rest =>
    if p c then
      if inRun then collapseGo p true rest
      else 0x20 :: collapseGo p true rest
    else c :: collapseGo p false rest

/-- `s.replace(/[class]+/g, ' ')`: every maximal run of units in the class
collapses to a single space. -/
def collapseClass (p : Nat → Bool) (s : JStr) : JStr := collapseGo p false s

/-- `s.split(/([class])/)` for a single-unit capturing class: segments and
the captured separators, interleaved, as `String.prototype.split` returns
them. -/
def splitClassGo (p : Nat → Bool) : JStr → JStr → List JStr
  | [], acc => [acc.reverse]
  | c :: rest, acc =>
    if p c then acc.reverse :: [c] :: splitClassGo p rest []
    else splitClassGo p rest (c :: acc)

/-- `s.split(/([class])/)`. -/
def splitOnClassKeep (p : Nat → Bool) (s : JStr) : List JStr := splitClassGo p s []

/-! ## A backtracking matcher for the source's regular expressions

Each regex literal of the source is transcribed below as an `RE` tree; the
matcher implements ECMAScript code-unit semantics: ordered alternation,
greedy and lazy bounded quantifiers (a repetition stops when an iteration
consumes nothing), capture groups, positive lookahead, `^`, `$`, and
leftmost-match search. -/

/-- Regular-expression syntax: `cls` is a character class over code units,
`rep lo hi lzy` a `{lo,hi}` quantifier (`hi = none` unbounded, `lzy` the
`?` suffix), `grp i` capture group number `i`, `look` a `(?= )` lookahead,
`bos`/`eos` the `^`/`$` anchors. -/
inductive RE where
  | eps : RE
  | bos : RE
  | eos : RE
  | cls (p : Nat → Bool) : RE
  | cat (r1 r2 : RE) : RE
  | alt (r1 r2 : RE) : RE
  | grp (i : Nat) (r : RE) : RE
  | look (r : RE) : RE
  | rep (lo : Nat) (hi : Option Nat) (lzy : Bool) (r : RE) : RE

/-- Captured spans: group index, start, end (in code units). -/
abbrev Caps := List (Nat × Nat × Nat)

/-- Structural size of a regex, used to bound the matcher's fuel. -/
def reSize : RE → Nat
  | .cat a b => reSize a + reSize b + 1
  | .alt a b => reSize a + reSize b + 1
  | .grp _ a => reSize a + 1
  | .look a => reSize a + 1
  | .rep _ _ _ a => reSize a + 2
  | _ => 1

/-- The backtracking core: tries to match `r` at `pos` in `s`, calling the
continuation `k` with the end position and captures of each candidate in
ECMAScript preference order; the first success wins. -/
def reRun (s : JStr) : Nat → RE → Nat → Caps → (Nat → Caps → Option (Nat × Caps)) →
    Option (Nat × Caps)
  | 0, _, _, _, _ => none
  | fuel + 1, r, pos, caps, k =>
    match r with
    | .eps => k pos caps
    | .bos => if pos == 0 then k pos caps else none
    | .eos => if pos == s.length then k pos caps else none
    | .cls p =>
      match s.get? pos with
      | some c => if p c then k (pos + 1) caps else none
      | none => none
    | .cat r1 r2 => reRun s fuel r1 pos caps fun p1 c1 => reRun s fuel r2 p1 c1 k
    | .alt r1 r2 =>
      (reRun s fuel r1 pos caps k).orElse fun _ => reRun s fuel r2 pos caps k
    | .grp i r1 => reRun s fuel r1 pos caps fun p1 c1 => k p1 ((i, pos, p1) :: c1)
    | .look r1 =>
      match reRun s fuel r1 pos caps (fun p1 c1 => some (p1, c1)) with
      | some (_, c1) => k pos c1
      | none => none
    | .rep lo hi lzy r1 =>
      if hi == some 0 then k pos caps
      else
        let hi1 := hi.map (· - 1)
        if 0 < lo then
          reRun s fuel r1 pos caps fun p1 c1 =>
            reRun s fuel (.rep (lo - 1) hi1 lzy r1) p1 c1 k
        else if lzy then
          (k pos caps).orElse fun _ =>
            reRun s fuel r1 pos caps fun p1 c1 =>
              if pos < p1 then reRun s fuel (.rep 0 hi1 lzy r1) p1 c1 k else none
        else
          (reRun s fuel r1 pos caps fun p1 c1 =>
            if pos < p1 then reRun s fuel (.rep 0 hi1 lzy r1) p1 c1 k else none).orElse
            fun _ => k pos caps

/-- A successful match: its span and captured groups. -/
structure MatchRes where
  mStart : Nat
  mEnd : Nat
  caps : Caps
deriving Repr, DecidableEq

/-- Tries `r` anchored at position `i` of `s`. -/
def reTry (r : RE) (s : JStr) (i : Nat) : Option MatchRes :=
  match reRun s ((s.length + 2) * (reSize r + 2) * 2) r i [] (fun p c => some (p, c)) with
  | some (e, c) => some ⟨i, e, c⟩
  | none => none

/-- Leftmost-match search from position `i` rightward. -/
def reFindGo (r : RE) (s : JStr) : Nat → Nat → Option MatchRes
  | 0, _ => none
  | fuel + 1, i =>
    match reTry r s i with
    | some m => some m
    | none => if i < s.length then reFindGo r s fuel (i + 1) else none

/-- `regex.exec(s)` starting the scan at index `i`. -/
def reFindFrom (r : RE) (s : JStr) (i : Nat) : Option MatchRes :=
  reFindGo r s (s.length + 1 - i) i

/-- `s.match(regex)` (leftmost match). -/
def reFind (r : RE) (s : JStr) : Option MatchRes := reFindFrom r s 0

/-- `regex.test(s)`. -/
def reTest (r : RE) (s : JStr) : Bool := (reFind r s).isSome

/-- The code units of `s` from `a` (inclusive) to `b` (exclusive). -/
def jslice (s : JStr) (a b : Nat) : JStr := (s.drop a).take (b - a)

/-- Capture group `i` of a match, when it participated. -/
def capGet (s : JStr) (m : MatchRes) (i : Nat) : Option JStr :=
  (m.caps.find? fun t => t.1 == i).map fun t => jslice s t.2.1 t.2.2

/-- Capture group `i`, the empty string when absent (the source always
guards an optional group with `m[i] ? ... : ''`). -/
def capD (s : JStr) (m : MatchRes) (i : Nat) : JStr := (capGet s m i).getD []

/-- `s.replace(regex-with-g, f)`: leftmost matches replaced left to right,
resuming after each match (advancing one unit past an empty match, which
none of the source's global patterns can produce). -/
def reReplGo (r : RE) (f : JStr → MatchRes → JStr) (s : JStr) : Nat → Nat → JStr
  | 0, i => s.drop i
  | fuel + 1, i =>
    match reFindFrom r s i with
    | none => s.drop i
    | some m =>
      jslice s i m.mStart ++ f s m ++
        (if m.mStart < m.mEnd then reReplGo r f s fuel m.mEnd
         else
           match s.get? m.mEnd with
           | some c => c :: reReplGo r f s fuel (m.mEnd + 1)
           | none => [])

/-- `s.replace(regex-with-g, f)`. -/
def reReplaceAll (r : RE) (f : JStr → MatchRes → JStr) (s : JStr) : JStr :=
  reReplGo r f s (s.length + 1) 0

/-- `s.replace(regex-without-g, f)`: only the leftmost match replaced. -/
def reReplaceFirst (r : RE) (f : JStr → MatchRes → JStr) (s : JStr) : JStr :=
  match reFind r s with
  | none => s
  | some m => jslice s 0 m.mStart ++ f s m ++ s.drop m.mEnd

/-- The matches produced by a `while ((m = regex.exec(s)) !== null)` loop
over a global regex. -/
def reExecGo (r : RE) (s : JStr) : Nat → Nat → List MatchRes
  | 0, _ => []
  | fuel + 1, i =>
    match reFindFrom r s i with
    | none => []
    | some m =>
      m :: reExecGo r s fuel (if m.mStart < m.mEnd then m.mEnd else m.mEnd + 1)

/-- All matches of a global regex, in scan order. -/
def reExecAll (r : RE) (s : JStr) : List MatchRes := reExecGo r s (s.length + 1) 0

/-- Sequencing a list of regexes. -/
def reSeq (l : List RE) : RE := l.foldr RE.cat RE.eps

/-- A single literal code unit. -/
def reCh (c : Nat) : RE := RE.cls fun d => d == c

/-- A case-sensitive literal string. -/
def reLit (s : JStr) : RE := reSeq (s.map reCh)

/-- A case-insensitive literal string (the `i` flag on an ASCII literal). -/
def reLitCi (s : JStr) : RE :=
  reSeq (s.map fun c => RE.cls fun d => toLowerU d == toLowerU c)

/-- `r*` (greedy). -/
def reStar (r : RE) : RE := RE.rep 0 none false r

/-- `r+` (greedy). -/
def rePlus (r : RE) : RE := RE.rep 1 none false r

/-- `r+?` (lazy). -/
def rePlusLzy (r : RE) : RE := RE.rep 1 none true r

/-- `r*?` (lazy). -/
def reStarLzy (r : RE) : RE := RE.rep 0 none true r

/-- `r?` (greedy). -/
def reOpt (r : RE) : RE := RE.rep 0 (some 1) false r

/-- `\s` as a regex atom. -/
def reWs : RE := RE.cls isJsWhite

/-- `.` (any code unit other than a line terminator; no `s` flag anywhere
in the source). -/
def reDot : RE :=
  RE.cls fun c => !(c == 0x0A || c == 0x0D || c == 0x2028 || c == 0x2029)

/-- `\d` as a regex atom. -/
def reDigit : RE := RE.cls isDigitU

/-- An alternation `a|b|c` in source order. -/
def reAlts : List RE → RE
  | [] => RE.eps
  | [r] => r
  | r :: rest => RE.alt r (reAlts rest)

/-- One code unit, case-insensitively (the `i` flag). -/
def reChCi (c : Nat) : RE := RE.cls fun d => toLowerU d == toLowerU c

/-! ## Embedding of `script.js` (the rewrite shared with `part_001`)

Namespace `SJ` models `formatRecommendations` (script.js lines 230-406),
`formatRecommendationText` (lines 451-521) and `calculateSoilLoss`
(lines 86-100).  The two files are line-for-line identical on these
functions. -/

namespace SJ

/-- The class `[🌳🌴🌾🌿🌱]` of script.js: without the `u` flag it is the
set of the six UTF-16 code units occurring in those surrogate pairs. -/
def emojiUnit (c : Nat) : Bool :=
  c == 0xD83C || c == 0xDF33 || c == 0xDF34 || c == 0xDF3E || c == 0xDF3F || c == 0xDF31

/-- The separator class `[–\-:]` (en dash U+2013, hyphen, colon). -/
def sepUnit (c : Nat) : Bool := c == 0x2013 || c == 0x2D || c == 0x3A

/-- Pattern 1 of script.js line 240:
`/[🌳🌴🌾🌿🌱]?\s*([^–\-:0-9]+?)\s*[–\-:]\s*(\d+)\s*([^–\-:]*)/i`. -/
def p1 : RE :=
  reSeq [reOpt (RE.cls emojiUnit), reStar reWs,
    RE.grp 1 (rePlusLzy (RE.cls fun c => !(sepUnit c || isDigitU c))),
    reStar reWs, RE.cls sepUnit, reStar reWs,
    RE.grp 2 (rePlus reDigit), reStar reWs,
    RE.grp 3 (reStar (RE.cls fun c => !(sepUnit c)))]

/-- Pattern 2 of script.js line 241:
`/(\d+)\s*[–\-:]\s*[🌳🌴🌾🌿🌱]?\s*([^–\-:]+)/i`. -/
def p2 : RE :=
  reSeq [RE.grp 1 (rePlus reDigit), reStar reWs, RE.cls sepUnit, reStar reWs,
    reOpt (RE.cls emojiUnit), reStar reWs,
    RE.grp 2 (rePlus (RE.cls fun c => !(sepUnit c)))]

/-- The trailing descriptor words stripped from a name (script.js line 301):
`/\s*(recommended|trees?|plants?|clumps?|clusters?)\s*$/gi`. -/
def trailUnitsRE : RE :=
  reSeq [reStar reWs,
    RE.grp 1 (reAlts [reLitCi (jstr "recommended"),
      RE.cat (reLitCi (jstr "tree")) (reOpt (reChCi 0x73)),
      RE.cat (reLitCi (jstr "plant")) (reOpt (reChCi 0x73)),
      RE.cat (reLitCi (jstr "clump")) (reOpt (reChCi 0x73)),
      RE.cat (reLitCi (jstr "cluster")) (reOpt (reChCi 0x73))]),
    reStar reWs, RE.eos]

/-- The unit-extraction pattern of script.js line 305: `/\d+\s*([a-z]+)/i`. -/
def unitRE : RE :=
  reSeq [rePlus reDigit, reStar reWs, RE.grp 1 (rePlus (RE.cls isAsciiAlpha))]

/-- `/^(\d+)\s+([a-z\s]+)/i` (script.js line 342). -/
def numFirstRE : RE :=
  reSeq [RE.bos, RE.grp 1 (rePlus reDigit), rePlus reWs,
    RE.grp 2 (rePlus (RE.cls fun c => isAsciiAlpha c || isJsWhite c))]

/-- `/(\d+)/` (script.js line 353). -/
def numAnyRE : RE := RE.grp 1 (rePlus reDigit)

/-- `/^[🌳🌴🌾🌿🌱]?\s*([^0-9–\-:]+)/` (script.js line 354). -/
def nameHeadRE : RE :=
  reSeq [RE.bos, reOpt (RE.cls emojiUnit), reStar reWs,
    RE.grp 1 (rePlus (RE.cls fun c => !(isDigitU c || sepUnit c)))]

/-- `/[–\-:]\s*$/` (script.js line 356, non-global). -/
def sepEndRE : RE := reSeq [RE.cls sepUnit, reStar reWs, RE.eos]

/-- The hedging/meta vocabulary of the noise filter (script.js lines
252-277), each tested with `trimmed.toLowerCase().includes(...)`. -/
def noisePhrases : List JStr :=
  [jstr "based on", jstr "okay, so", jstr "i need to", jstr "i remember",
   jstr "i think", jstr "maybe", jstr "hmm", jstr "wait",
   jstr "i" ++ apo ++ jstr "m not sure", jstr "i should",
   jstr "putting it all together", jstr "to address", jstr "important:",
   jstr "additional", jstr "maintenance", jstr "spacing:", jstr "benefits:",
   jstr "quantity:", jstr "hectare", jstr "per hectare", jstr "these species",
   jstr "combining", jstr "provide", jstr "chosen for", jstr "promoting"]

/-- The header/emphasis drop rule: `startsWith('#') || startsWith('**') ||
startsWith('*')` (script.js lines 249-251). -/
def startsHeader (t : JStr) : Bool :=
  hasPre (jstr "#") t || hasPre (jstr "**") t || hasPre (jstr "*") t

/-- The vocabulary drop rule (script.js lines 252-277 minus the
`recommended` clause). -/
def vocabHit (t : JStr) : Bool := noisePhrases.any fun ph => containsSeg (lowerJs t) ph

/-- Truthiness of `trimmed.match(/\d+/)`: the line contains a digit. -/
def hasDigit (t : JStr) : Bool := t.any isDigitU

/-- The clause `includes('recommended') && !trimmed.match(/\d+/)`
(script.js line 272). -/
def recomClause (t : JStr) : Bool :=
  containsSeg (lowerJs t) (jstr "recommended") && !hasDigit t

/-- The noise filter's skip condition on a trimmed line (script.js lines
248-280); `true` means the line is dropped before item extraction. -/
def noiseSkip (t : JStr) : Bool :=
  t.isEmpty || startsHeader t || vocabHit t || recomClause t || 100 < t.length

/-- The noise filter retains the line. -/
def noiseKeep (t : JStr) : Bool := !noiseSkip t

/-- A `{name, quantity}` record pushed by `formatRecommendations`. -/
structure SItem where
  name : JStr
  quantity : JStr
deriving Repr, DecidableEq

/-- The shared post-match processing of script.js lines 286-329: branch on
whether group 1 is numeric, clean the name, recover the unit, build the
quantity text, and push only when name and quantity are non-empty
(`m3` is pattern 1's unit group, `[]` when pattern 2 matched). -/
def mkItem (trimmed m1 m2 m3 : JStr) : Option SItem :=
  let nqu : JStr × JStr × JStr :=
    if !m1.isEmpty && m1.any isDigitU then (trimJs m2, m1, [])
    else (trimJs m1, m2, trimJs m3)
  let name0 := nqu.1
  let quantity := nqu.2.1
  let unit0 := nqu.2.2
  let name1 := trimJs (removeClass emojiUnit name0)
  let name2 := trimJs (reReplaceAll trailUnitsRE (fun _ _ => []) name1)
  let unit1 :=
    if unit0.isEmpty && !quantity.isEmpty then
      match reFind unitRE trimmed with
      | some m => capD trimmed m 1
      | none => []
    else unit0
  let quantityText :=
    if !unit1.isEmpty && !containsSeg quantity unit1 then quantity ++ [0x20] ++ unit1
    else if unit1.isEmpty then
      if containsSeg (lowerJs name2) (jstr "grass") then quantity ++ jstr " clumps"
      else if containsSeg (lowerJs name2) (jstr "bamboo") then quantity ++ jstr " clusters"
      else quantity ++ jstr " trees"
    else quantity
  if !name2.isEmpty && !quantity.isEmpty then some ⟨name2, quantityText⟩ else none

/-- The `for (const pattern of patterns)` loop of script.js lines 283-331:
pattern 1 first, pattern 2 only when pattern 1 fails to match or its match
yields no item. -/
def lineItem (trimmed : JStr) : Option SItem :=
  let viaP2 : Option SItem :=
    match reFind p2 trimmed with
    | some m2 => mkItem trimmed (capD trimmed m2 1) (capD trimmed m2 2) []
    | none => none
  match reFind p1 trimmed with
  | some m =>
    match mkItem trimmed (capD trimmed m 1) (capD trimmed m 2) (capD trimmed m 3) with
    | some it => some it
    | none => viaP2
  | none => viaP2

/-- `recommendations.split('\n').filter(line => line.trim())`. -/
def recLines (r : JStr) : List JStr := (splitNl r).filter fun l => !(trimJs l).isEmpty

/-- The primary extraction pass (script.js lines 244-332). -/
def stage1 (r : JStr) : List SItem :=
  (recLines r).filterMap fun line =>
    let t := trimJs line
    if noiseSkip t then none else lineItem t

/-- The number-first pattern of the simpler second pass (script.js lines
342-350). -/
def numFirstItem (t : JStr) : Option SItem :=
  match reFind numFirstRE t with
  | some m =>
    let name := trimJs (reReplaceAll trailUnitsRE (fun _ _ => []) (trimJs (capD t m 2)))
    if !name.isEmpty && 2 < name.length then some ⟨name, capD t m 1 ++ jstr " trees"⟩
    else none
  | none => none

/-- The name-then-number pattern of the second pass (script.js lines
352-370). -/
def nameNumItem (t : JStr) : Option SItem :=
  match reFind numAnyRE t, reFind nameHeadRE t with
  | some mn, some mm =>
    let name0 := trimJs (reReplaceFirst sepEndRE (fun _ _ => []) (trimJs (capD t mm 1)))
    let name := trimJs (reReplaceAll trailUnitsRE (fun _ _ => []) name0)
    if !name.isEmpty && 2 < name.length then
      let unit :=
        if containsSeg (lowerJs name) (jstr "grass") then jstr "clumps"
        else if containsSeg (lowerJs name) (jstr "bamboo") then jstr "clusters"
        else jstr "trees"
      some ⟨name, capD t mn 1 ++ [0x20] ++ unit⟩
    else none
  | _, _ => none

/-- The simpler second extraction pass, run only when the first pass found
nothing (script.js lines 335-373). -/
def stage2 (r : JStr) : List SItem :=
  (recLines r).filterMap fun line =>
    let t := trimJs line
    if hasDigit t && t.length < 120 then
      match numFirstItem t with
      | some it => some it
      | none => nameNumItem t
    else none

/-- The case-insensitive, first-occurrence-wins deduplication of script.js
lines 375-386 (`seen` is the set of lowercased names already emitted). -/
def dedupGo : List SItem → List JStr → List SItem
  | [], _ => []
  | it :: rest, seen =>
    if seen.contains (lowerJs it.name) then dedupGo rest seen
    else it :: dedupGo rest (lowerJs it.name :: seen)

/-- `formatRecommendations`' deduplication step. -/
def dedup (l : List SItem) : List SItem := dedupGo l []

/-- The candidate items before deduplication: the first pass, else the
second pass. -/
def rawItems (r : JStr) : List SItem :=
  let i1 := stage1 r
  if i1.isEmpty then stage2 r else i1

/-- The deduplicated item list that `formatRecommendations` renders. -/
def items (r : JStr) : List SItem := dedup (rawItems r)

/-- The outcome of `formatRecommendations` (script.js lines 388-405):
either the raw-text fallback `<div class="recommendations-list">…</div>`
carrying the input verbatim, or the rendered item table. -/
inductive Result where
  | fallback (text : JStr) : Result
  | table (its : List SItem) : Result
deriving Repr, DecidableEq

/-- `formatRecommendations(recommendations, …)` as data: which state is
rendered and with what content (the function is total — it never throws). -/
def formatRecommendations (r : JStr) : Result :=
  let its := items r
  if its.isEmpty then .fallback r else .table its

/-- `/SECTION\s*[123][:\-]?\s*/gi` (script.js line 455). -/
def sectionTagRE : RE :=
  reSeq [reLitCi (jstr "SECTION"), reStar reWs,
    RE.cls (fun c => c == 0x31 || c == 0x32 || c == 0x33),
    reOpt (RE.cls fun c => c == 0x3A || c == 0x2D), reStar reWs]

/-- `/^SECTION\s*[123]/i` (script.js line 473). -/
def secHeadRE : RE :=
  reSeq [RE.bos, reLitCi (jstr "SECTION"), reStar reWs,
    RE.cls fun c => c == 0x31 || c == 0x32 || c == 0x33]

/-- The six `skipPatterns` of script.js lines 458-465, in order. -/
def skipRes : List RE :=
  [reSeq [reLitCi (jstr "that"), reCh 39, reLitCi (jstr "s"), rePlus reWs,
     reLitCi (jstr "a"), rePlus reWs],
   reSeq [reLitCi (jstr "i"), rePlus reWs, reLitCi (jstr "should"), rePlus reWs],
   reSeq [reLitCi (jstr "i"), rePlus reWs, reLitCi (jstr "need"), rePlus reWs,
     reLitCi (jstr "to"), rePlus reWs],
   reSeq [reLitCi (jstr "moving"), rePlus reWs, reLitCi (jstr "on"), rePlus reWs,
     reLitCi (jstr "to")],
   reLitCi (jstr "finally"),
   reSeq [reLitCi (jstr "comes"), rePlus reWs, reLitCi (jstr "to"), rePlus reWs,
     reLitCi (jstr "mind")]]

/-- `skipPatterns.some(pattern => pattern.test(trimmed))`. -/
def skipAny (t : JStr) : Bool := skipRes.any fun r => reTest r t

/-- `text.replace(/SECTION\s*[123][:\-]?\s*/gi, '').trim()` (line 455). -/
def sbCleaned (t : JStr) : JStr := trimJs (reReplaceAll sectionTagRE (fun _ _ => []) t)

/-- `cleanedText.split('\n')`. -/
def sbAllLines (t : JStr) : List JStr := splitNl (sbCleaned t)

/-- The line filter of script.js lines 468-482: drop blank lines, section
headers, skip-pattern lines and lines longer than 200 units. -/
def sbKeep (l : JStr) : Bool :=
  let tr := trimJs l
  !tr.isEmpty && !reTest secHeadRE tr && !skipAny tr && !(200 < tr.length)

/-- The filtered lines the bulletizer works on. -/
def sbLines (t : JStr) : List JStr := (sbAllLines t).filter sbKeep

/-- `/^[-•*]\s/` (script.js line 492). -/
def bulletHeadRE : RE :=
  reSeq [RE.bos, RE.cls (fun c => c == 0x2D || c == 0x2022 || c == 0x2A), reWs]

/-- `/^\d+[\.\)]\s/` (script.js line 492). -/
def bulletNumRE : RE :=
  reSeq [RE.bos, rePlus reDigit, RE.cls (fun c => c == 0x2E || c == 0x29), reWs]

/-- A line that counts as a bullet point. -/
def bulletShape (tr : JStr) : Bool := reTest bulletHeadRE tr || reTest bulletNumRE tr

/-- `/^[-•*\d\.\)]\s+/` (script.js line 495, non-global replace). -/
def markerRE : RE :=
  reSeq [RE.bos,
    RE.cls (fun c => c == 0x2D || c == 0x2022 || c == 0x2A || isDigitU c ||
      c == 0x2E || c == 0x29),
    rePlus reWs]

/-- `/\*\*([^*]+)\*\*/g` with replacement `'$1'` (script.js line 497). -/
def boldRE : RE :=
  reSeq [reCh 0x2A, reCh 0x2A, RE.grp 1 (rePlus (RE.cls fun c => !(c == 0x2A))),
    reCh 0x2A, reCh 0x2A]

/-- `content.replace(/\*\*([^*]+)\*\*/g, '$1')`. -/
def unbold (s : JStr) : JStr := reReplaceAll boldRE (fun str m => capD str m 1) s

/-- The bullet emitted for one line by the bullet branch of
`formatRecommendationText` (script.js lines 492-504), when any. -/
def bulletContent (l : JStr) : Option JStr :=
  let tr := trimJs l
  if bulletShape tr then
    let c0 := trimJs (reReplaceFirst markerRE (fun _ _ => []) tr)
    let c2 := collapseClass isJsWhite (unbold c0)
    if !c2.isEmpty && 5 < c2.length then some c2 else none
  else none

/-- The bullet emitted for one line by the no-bullets fallback branch
(script.js lines 508-518), when any. -/
def fallbackContent (l : JStr) : Option JStr :=
  let tr := trimJs l
  if !tr.isEmpty && tr.length < 200 && 10 < tr.length && !skipAny tr then some tr
  else none

/-- `hasBullets` after the first pass of script.js lines 487-505. -/
def sbHasBullets (t : JStr) : Bool := (sbLines t).any fun l => bulletShape (trimJs l)

/-- `formatRecommendationText(text)` as the ordered list of bullet texts it
renders (each becomes one `recommendation-item-text` div, in this order). -/
def sectionBullets (t : JStr) : List JStr :=
  if t.isEmpty then []
  else if sbHasBullets t then (sbLines t).filterMap bulletContent
  else if !(sbLines t).isEmpty then (sbLines t).filterMap fallbackContent
  else []

/-- `FORMULA_CONSTANT` (script.js line 11); JavaScript numbers are modelled
as rationals. -/
def FORMULA_CONSTANT : ℚ := 81610.062

/-- `SEAWALL_COEFFICIENT` (script.js line 12). -/
def SEAWALL_COEFFICIENT : ℚ := -54.458

/-- `TYPHOON_COEFFICIENT` (script.js line 13). -/
def TYPHOON_COEFFICIENT : ℚ := 2665.351

/-- `FLOOD_COEFFICIENT` (script.js line 14). -/
def FLOOD_COEFFICIENT : ℚ := 2048.205

/-- `calculateSoilLoss` (script.js lines 86-100): an argument is `none`
when `parseFloat` fails on it, so `parseFloat(x) || 0` is `Option.getD 0`
(a parsed `0` also yields `0` through `|| 0`). -/
def calculateSoilLoss (seawallLength typhoons floods : Option ℚ) : ℚ :=
  let S := seawallLength.getD 0
  let T := typhoons.getD 0
  let F := floods.getD 0
  let soilLoss := FORMULA_CONSTANT + SEAWALL_COEFFICIENT * S +
    TYPHOON_COEFFICIENT * T + FLOOD_COEFFICIENT * F
  max 0 soilLoss

end SJ

/-! ## Embedding of the `part_002` rewrite

Namespace `P2` models `getPlantEmoji` (lines 251-300), the cascading
`formatRecommendations` (lines 309-501) and `sanitizePdfText` (lines
667-686) of that file.  The file as committed is mojibake-corrupted: the
emoji and dash characters inside its regex literals decode to garbage code
units (for example the "dash variants" class holds U+201A, U+00C4, U+00EC,
U+00EE, U+00EF), and those exact units — taken from the file's bytes — are
what the classes below contain.  The `\u{1F334}`-style escapes of
`getPlantEmoji` survived corruption and still denote real emoji. -/

namespace P2

/-- The corrupted "dash variants" class of lines 319 and 677. -/
def dashMoji (c : Nat) : Bool :=
  c == 0x201A || c == 0xC4 || c == 0xEC || c == 0xEE || c == 0xEF

/-- The corrupted `validEmojiPattern` class of lines 341, 373, 413, 478. -/
def validEmojiUnit (c : Nat) : Bool :=
  c == 0xF8FF || c == 0xFC || c == 0xE5 || c == 0x2265 || c == 0xA5 ||
  c == 0xE6 || c == 0xF8 || c == 0xB1 || c == 0x2264

/-- The corrupted glyph-split class of line 393 (it also contains `?`). -/
def glyphSplitUnit (c : Nat) : Bool :=
  c == 0xF8FF || c == 0xFC || c == 0xE5 || c == 0x2265 || c == 0xA5 ||
  c == 0xE6 || c == 0xF8 || c == 0xB1 || c == 0x3F

/-- The corrupted glyph class of the content-trailer strip on line 402. -/
def contentGlyphUnit (c : Nat) : Bool :=
  c == 0xF8FF || c == 0xFC || c == 0xE5 || c == 0x2265 || c == 0xA5 ||
  c == 0xE6 || c == 0xF8 || c == 0xB1

/-- The name-to-glyph table of `getPlantEmoji` (lines 253-272), in source
order; the values are the `\u{...}` escapes of the source. -/
def emojiMap : List (JStr × JStr) :=
  [(jstr "coconut", jstr "🌴"), (jstr "pandan", jstr "🌿"),
   (jstr "mahogany", jstr "🌳"), (jstr "vetiver", jstr "🌾"),
   (jstr "bamboo", jstr "🌿"), (jstr "acacia", jstr "🌳"),
   (jstr "eucalyptus", jstr "🌳"), (jstr "casuarina", jstr "🌳"),
   (jstr "leucaena", jstr "🌱"), (jstr "tamarind", jstr "🌳"),
   (jstr "terminalia", jstr "🌳"), (jstr "gmelina", jstr "🌳"),
   (jstr "melaleuca", jstr "🌳"), (jstr "pinus", jstr "🌲"),
   (jstr "pine", jstr "🌲"), (jstr "grass", jstr "🌾"),
   (jstr "tree", jstr "🌳"), (jstr "plant", jstr "🌱")]

/-- The own-property part of `emojiMap[name]`: exact-key lookup among the
object literal's 18 entries.  A JavaScript property access also walks the
prototype chain — see `emojiMapGet` for the full semantics with the
inherited `Object.prototype` members. -/
def mapLookup (n : JStr) : Option JStr :=
  (emojiMap.find? fun kv => kv.1 == n).map (·.2)

/-- One step of a stable insertion sort by descending key length, modelling
`Object.keys(emojiMap).sort((a, b) => b.length - a.length)` (line 280;
ECMAScript sort is stable, and insertion order is the object-literal order). -/
def insDesc (kv : JStr × JStr) : List (JStr × JStr) → List (JStr × JStr)
  | [] => [kv]
  | h :: t => if kv.1.length < h.1.length then h :: insDesc kv t else kv :: h :: t

/-- The table entries sorted by descending key length (stable). -/
def sortedPairs : List (JStr × JStr) := emojiMap.foldr insDesc []

/-- The category-heuristic tail of `getPlantEmoji` (lines 287-299). -/
def heuristicGlyph (name : JStr) : JStr :=
  if containsSeg name (jstr "tree") || containsSeg name (jstr "wood") then jstr "🌳"
  else if containsSeg name (jstr "grass") || containsSeg name (jstr "vetiver") then
    jstr "🌾"
  else if containsSeg name (jstr "bamboo") || containsSeg name (jstr "pandan") then
    jstr "🌿"
  else if containsSeg name (jstr "coconut") || containsSeg name (jstr "palm") then
    jstr "🌴"
  else jstr "🌱"

/-- The glyph-producing restriction of `getPlantEmoji` (lines 251-300):
exact own-key table match, else the longest-key substring match, else
category heuristics, else the default.  This is what the source computes
whenever the lowered name does not collide with an inherited
`Object.prototype` member name; `getPlantEmojiJs` below carries the full
JavaScript property-access semantics, under which such a collision makes
the source return the inherited non-string member instead. -/
def getPlantEmoji (plantName : JStr) : JStr :=
  let name := trimJs (lowerJs plantName)
  match mapLookup name with
  | some v => v
  | none =>
    match sortedPairs.find? fun kv => containsSeg name kv.1 with
    | some kv => kv.2
    | none => heuristicGlyph name

/-- The property names `emojiMap` inherits from `Object.prototype` (the
standard members of every ECMAScript ordinary object): accessing any of
them on the object literal yields a truthy function (or, for the
`__proto__` accessor, the `Object.prototype` object itself). -/
def protoMembers : List JStr :=
  [jstr "constructor", jstr "hasOwnProperty", jstr "isPrototypeOf",
   jstr "propertyIsEnumerable", jstr "toLocaleString", jstr "toString",
   jstr "valueOf", jstr "__proto__", jstr "__defineGetter__",
   jstr "__defineSetter__", jstr "__lookupGetter__", jstr "__lookupSetter__"]

/-- A JavaScript value as far as `getPlantEmoji` can produce one: a string,
or an inherited `Object.prototype` member (a function or object, recorded
by the property name that reached it). -/
inductive JsVal where
  | str (s : JStr) : JsVal
  | protoFn (name : JStr) : JsVal
deriving Repr, DecidableEq

/-- ECMAScript truthiness of such a value: a string is truthy iff
non-empty; functions and objects are always truthy. -/
def JsVal.truthy : JsVal → Bool
  | .str s => !s.isEmpty
  | .protoFn _ => true

/-- `emojiMap[name]` with full property-access semantics: an own property
of the literal first, else an inherited `Object.prototype` member, else
`undefined` (`none`). -/
def emojiMapGet (n : JStr) : Option JsVal :=
  match mapLookup n with
  | some v => some (.str v)
  | none => if protoMembers.contains n then some (.protoFn n) else none

/-- The substring-then-heuristics tail of `getPlantEmoji` (lines 279-299),
reached when the `if (emojiMap[name])` guard fails. -/
def getPlantEmojiTail (name : JStr) : JsVal :=
  match sortedPairs.find? fun kv => containsSeg name kv.1 with
  | some kv => .str kv.2
  | none => .str (heuristicGlyph name)

/-- `getPlantEmoji(plantName)` (lines 251-300) with full JavaScript
semantics: the `if (emojiMap[name]) return emojiMap[name]` guard (line
275) is a truthiness test on the property access, so an inherited
`Object.prototype` member — always truthy — is returned as-is. -/
def getPlantEmojiJs (plantName : JStr) : JsVal :=
  let name := trimJs (lowerJs plantName)
  match emojiMapGet name with
  | some v => if v.truthy then v else getPlantEmojiTail name
  | none => getPlantEmojiTail name

/-- Line 319: `recommendations.replace(/[…corrupted dashes…]/g, '-').trim()`. -/
def normalizeP2 (r : JStr) : JStr := trimJs (replClass dashMoji 0x2D r)

/-- `normalized.split('\n').filter(line => line.trim())` (line 322). -/
def linesOf (normalized : JStr) : List JStr :=
  (splitNl normalized).filter fun l => !(trimJs l).isEmpty

/-- A `{emoji, name, quantity}` record of the part_002 extractor. -/
structure P2Item where
  emoji : JStr
  name : JStr
  quantity : JStr
deriving Repr, DecidableEq

/-- The emoji-validation step shared by strategies 1-3 (lines 341-347 etc.):
a missing or corrupted matched glyph is replaced via `getPlantEmoji`, a
valid one merely loses its variation selectors. -/
def fixEmoji (e name : JStr) : JStr :=
  if e.isEmpty || !e.any validEmojiUnit || e == [0x3F] || e.isEmpty then
    getPlantEmoji name
  else e.filter fun c => !(c == 0xFE0F)

/-- The multiline pattern of line 332:
`/^(.{0,3}?)\s*(.+?)\s*-\s*(\d+)\s+(.+)$/`. -/
def multiRE : RE :=
  reSeq [RE.bos, RE.grp 1 (RE.rep 0 (some 3) true reDot), reStar reWs,
    RE.grp 2 (rePlusLzy reDot), reStar reWs, reCh 0x2D, reStar reWs,
    RE.grp 3 (rePlus reDigit), rePlus reWs, RE.grp 4 (rePlus reDot), RE.eos]

/-- One line of strategy 1 (lines 326-355). -/
def multiParse (line : JStr) : Option P2Item :=
  let trimmed := trimJs line
  if trimmed.isEmpty then none
  else
    match reFind multiRE trimmed with
    | some m =>
      let emoji0 := trimJs (capD trimmed m 1)
      let name := trimJs (capD trimmed m 2)
      let quantity := trimJs (capD trimmed m 3)
      let unit := trimJs (capD trimmed m 4)
      some ⟨fixEmoji emoji0 name, name, quantity ++ [0x20] ++ unit⟩
    | none => none

/-- Strategy 1, the multiline parse (runs only on more than one line). -/
def strat1 (lines : List JStr) : List P2Item := lines.filterMap multiParse

/-- The lookahead body of the single-line pattern (line 363):
`\s*.{0,3}?\s+[^-]+?-\s*\d+`. -/
def lookNext : RE :=
  reSeq [reStar reWs, RE.rep 0 (some 3) true reDot, rePlus reWs,
    rePlusLzy (RE.cls fun c => !(c == 0x2D)), reCh 0x2D, reStar reWs,
    rePlus reDigit]

/-- The global single-line pattern of line 363:
`/(.{0,3}?)\s+([^-]+?)\s*-\s*(\d+)\s+([a-zA-Z]+(?:\s+[a-zA-Z]+)*?)(?=\s*.{0,3}?\s+[^-]+?-\s*\d+|$)/g`. -/
def singleRE : RE :=
  reSeq [RE.grp 1 (RE.rep 0 (some 3) true reDot), rePlus reWs,
    RE.grp 2 (rePlusLzy (RE.cls fun c => !(c == 0x2D))), reStar reWs,
    reCh 0x2D, reStar reWs, RE.grp 3 (rePlus reDigit), rePlus reWs,
    RE.grp 4 (RE.cat (rePlus (RE.cls isAsciiAlpha))
      (reStarLzy (RE.cat (rePlus reWs) (rePlus (RE.cls isAsciiAlpha))))),
    RE.look (RE.alt lookNext RE.eos)]

/-- Strategy 2, the `while (globalPattern.exec(normalized))` scan
(lines 359-389). -/
def strat2 (normalized : JStr) : List P2Item :=
  (reExecAll singleRE normalized).filterMap fun m =>
    let emoji0 := trimJs (capD normalized m 1)
    let name := trimJs (capD normalized m 2)
    let quantity := trimJs (capD normalized m 3)
    let unit := trimJs (capD normalized m 4)
    if !name.isEmpty && !quantity.isEmpty && !unit.isEmpty then
      some ⟨fixEmoji emoji0 name, name, quantity ++ [0x20] ++ unit⟩
    else none

/-- The per-segment pattern of strategy 3 (line 405):
`/^(.+?)\s*-\s*(\d+)\s+(.+)$/`. -/
def itemRE3 : RE :=
  reSeq [RE.bos, RE.grp 1 (rePlusLzy reDot), reStar reWs, reCh 0x2D,
    reStar reWs, RE.grp 2 (rePlus reDigit), rePlus reWs,
    RE.grp 3 (rePlus reDot), RE.eos]

/-- The trailing-glyph strip of line 402: `/\s+[…corrupted glyphs…].*$/`
(non-global). -/
def contentCleanRE : RE :=
  reSeq [rePlus reWs, RE.cls contentGlyphUnit, reStar reDot, RE.eos]

/-- One split segment pair of strategy 3 (lines 396-430). -/
def glyphItem (e0 c0 : JStr) : Option P2Item :=
  let emoji0 := trimJs e0
  let content := reReplaceFirst contentCleanRE (fun _ _ => []) (trimJs c0)
  match reFind itemRE3 content with
  | some m =>
    let name := trimJs (capD content m 1)
    let quantity := trimJs (capD content m 2)
    let unit := trimJs (capD content m 3)
    if !name.isEmpty && !quantity.isEmpty && !unit.isEmpty then
      some ⟨fixEmoji emoji0 name, name, quantity ++ [0x20] ++ unit⟩
    else none
  | none => none

/-- The odd/even walk over the split parts (`for (let i = 1; …; i += 2)`
taking `parts[i]` and `parts[i+1]`). -/
def strat3Go : List JStr → List P2Item
  | e :: c :: rest =>
    (match glyphItem e c with
     | some it => it :: strat3Go rest
     | none => strat3Go rest)
  | _ => []

/-- Strategy 3: split on the (corrupted) glyph class and pair the parts
(lines 392-431). -/
def strat3 (normalized : JStr) : List P2Item :=
  match splitOnClassKeep glyphSplitUnit normalized with
  | _ :: rest => strat3Go rest
  | [] => []

/-- The plain pattern of line 440: `/^([A-Za-z\s]+?)\s*-\s*(\d+)\s+(.+)$/`. -/
def plainRE : RE :=
  reSeq [RE.bos,
    RE.grp 1 (rePlusLzy (RE.cls fun c => isAsciiAlpha c || isJsWhite c)),
    reStar reWs, reCh 0x2D, reStar reWs, RE.grp 2 (rePlus reDigit),
    rePlus reWs, RE.grp 3 (rePlus reDot), RE.eos]

/-- One line of strategy 4 (lines 435-455). -/
def plainParse (line : JStr) : Option P2Item :=
  let trimmed := trimJs line
  if trimmed.isEmpty then none
  else
    match reFind plainRE trimmed with
    | some m =>
      let name := trimJs (capD trimmed m 1)
      let quantity := trimJs (capD trimmed m 2)
      let unit := trimJs (capD trimmed m 3)
      if !name.isEmpty && !quantity.isEmpty && !unit.isEmpty then
        some ⟨getPlantEmoji name, name, quantity ++ [0x20] ++ unit⟩
      else none
    | none => none

/-- Strategy 4, the no-marker fallback parse. -/
def strat4 (lines : List JStr) : List P2Item := lines.filterMap plainParse

/-- The cascading matcher of `formatRecommendations` (lines 309-456):
strategy 1 only on a multi-line input, each later strategy only on an
empty accumulator. -/
def extractItems (r : JStr) : List P2Item :=
  let normalized := normalizeP2 r
  let lines := linesOf normalized
  let items1 := if 1 < lines.length then strat1 lines else []
  let items2 := if items1.isEmpty then strat2 normalized else items1
  let items3 := if items2.isEmpty then strat3 normalized else items2
  if items3.isEmpty then strat4 lines else items3

/-- The outcome of part_002's `formatRecommendations` (lines 459-501):
either the `<div class="recommendations-list"><pre>…</pre></div>` fallback
carrying the raw input, or the rendered table. -/
inductive Result where
  | fallback (text : JStr) : Result
  | table (its : List P2Item) : Result
deriving Repr, DecidableEq

/-- `formatRecommendations(recommendations, …)` as data (total: the source
never throws on any string input). -/
def formatRecommendations (r : JStr) : Result :=
  let its := extractItems r
  if its.isEmpty then .fallback r else .table its

/-- The canonical composition table used to model
`String.prototype.normalize('NFC')`: full NFC needs the Unicode character
database, so the model composes an adjacent (starter, combining mark) pair
through this finite table — Latin vowels with the combining acute
U+0301 — and leaves everything else unchanged.  On every concrete string
this development evaluates `nfc` on, the model agrees with full NFC
(pairs not in the table, such as U+200D followed by U+0301, are not
composable in Unicode either). -/
def nfcPairs : List (Nat × Nat × Nat) :=
  [(0x65, 0x301, 0xE9), (0x45, 0x301, 0xC9), (0x61, 0x301, 0xE1),
   (0x41, 0x301, 0xC1), (0x6F, 0x301, 0xF3), (0x4F, 0x301, 0xD3),
   (0x69, 0x301, 0xED), (0x75, 0x301, 0xFA)]

/-- The fuelled core of `nfc`; the fuel starts at the string length and
every step shortens the string, so it never runs out. -/
def nfcGo : Nat → JStr → JStr
  | _, [] => []
  | _, [a] => [a]
  | fuel + 1, a :: b :: rest =>
    (match nfcPairs.find? fun t => t.1 == a && t.2.1 == b with
     | some t => nfcGo fuel (t.2.2 :: rest)
     | none => a :: nfcGo fuel (b :: rest))
  | 0, s => s

/-- `text.normalize('NFC')`, modelled as canonical composition over
`nfcPairs` (see there). -/
def nfc (s : JStr) : JStr := nfcGo s.length s

/-- UTF-16 surrogate code units (the class `[\uD800-\uDFFF]` of line 673). -/
def isSurrogateU (c : Nat) : Bool := 0xD800 ≤ c && c ≤ 0xDFFF

/-- The class of line 675: U+FE0F, U+200B through U+200D, U+2060. -/
def isZwU (c : Nat) : Bool :=
  c == 0xFE0F || (0x200B ≤ c && c ≤ 0x200D) || c == 0x2060

/-- The class `[ \t\f\v]` of line 679. -/
def isSpTab (c : Nat) : Bool := c == 0x20 || c == 0x09 || c == 0x0C || c == 0x0B

/-- `s.split('\n').map(l => l.trim()).join('\n')` (line 681). -/
def perLineTrim (s : JStr) : JStr := joinNl ((splitNl s).map trimJs)

/-- The transformation chain of `sanitizePdfText` after the NFC step
(lines 673-682), in source order: remove surrogates, remove
variation-selector/zero-width units, map dash variants to `-`, collapse
space runs, trim each line, trim the whole. -/
def sanitizeTail (s : JStr) : JStr :=
  trimJs (perLineTrim (collapseClass isSpTab (replClass dashMoji 0x2D
    (removeClass isZwU (removeClass isSurrogateU s)))))

/-- The transformation chain of `sanitizePdfText` after the falsy guard
(lines 670-682), in source order. -/
def sanitizeSteps (s : JStr) : JStr := sanitizeTail (nfc s)

/-- `sanitizePdfText(text)` (lines 667-686).  The `try`/`catch` of the
source is dead in the model: none of the steps can throw, so the function
is total and returns a (possibly empty) string for every input. -/
def sanitizePdfText (s : JStr) : JStr := if s.isEmpty then [] else sanitizeSteps s

end P2

/-! ## Claim theorems -/

/-- C10: for every input triple, `calculateSoilLoss` returns
`max(0, 81610.062 - 54.458*S + 2665.351*T + 2048.205*F)` with an argument
that fails to parse treated as `0`, so the result is never negative — in
particular a 10000 m seawall drives the raw formula negative and the
function returns `0`. -/
theorem c10_soil_loss_formula :
    (∀ s t f : Option ℚ,
      SJ.calculateSoilLoss s t f =
        max 0 (81610.062 - 54.458 * s.getD 0 + 2665.351 * t.getD 0 +
          2048.205 * f.getD 0) ∧
      0 ≤ SJ.calculateSoilLoss s t f) ∧
    SJ.calculateSoilLoss (some 10000) (some 0) (some 0) = 0 ∧
    (81610.062 : ℚ) - 54.458 * 10000 + 2665.351 * 0 + 2048.205 * 0 < 0 := by
  refine ⟨fun s t f => ⟨?_, ?_⟩, ?_, by norm_num⟩
  · simp only [SJ.calculateSoilLoss]
    congr 1
    simp only [SJ.FORMULA_CONSTANT, SJ.SEAWALL_COEFFICIENT, SJ.TYPHOON_COEFFICIENT,
      SJ.FLOOD_COEFFICIENT]
    ring
  · exact le_max_left 0 _
  · simp only [SJ.calculateSoilLoss]
    rw [max_eq_left]
    norm_num [SJ.FORMULA_CONSTANT, SJ.SEAWALL_COEFFICIENT, SJ.TYPHOON_COEFFICIENT,
      SJ.FLOOD_COEFFICIENT]

/-- C4: the cascading matcher evaluates its strategies in the fixed order
multiline, single-line global scan, glyph split, plain fallback; the
multiline strategy contributes only when there is more than one filtered
line, each later strategy only when every earlier one produced nothing, and
the first strategy with at least one candidate determines the output. -/
theorem c4_cascade_first_wins (r : JStr) :
    P2.extractItems r =
      (if 1 < (P2.linesOf (P2.normalizeP2 r)).length ∧
          P2.strat1 (P2.linesOf (P2.normalizeP2 r)) ≠ [] then
        P2.strat1 (P2.linesOf (P2.normalizeP2 r))
       else if P2.strat2 (P2.normalizeP2 r) ≠ [] then P2.strat2 (P2.normalizeP2 r)
       else if P2.strat3 (P2.normalizeP2 r) ≠ [] then P2.strat3 (P2.normalizeP2 r)
       else P2.strat4 (P2.linesOf (P2.normalizeP2 r))) := by
  by_cases h1 : 1 < (P2.linesOf (P2.normalizeP2 r)).length <;>
    by_cases h2 : P2.strat1 (P2.linesOf (P2.normalizeP2 r)) = [] <;>
      by_cases h3 : P2.strat2 (P2.normalizeP2 r) = [] <;>
        by_cases h4 : P2.strat3 (P2.normalizeP2 r) = [] <;>
          simp [P2.extractItems, h1, h2, h3, h4]

/-- C2: on the normalized input `"🌴 Coconut - 25 trees\n🌿 Pandan - 50
clumps"` the script.js extractor renders a table of exactly two items, in
source order: `Coconut` with quantity text `25 trees`, then `Pandan` with
`50 clumps`. -/
theorem c2_two_items :
    SJ.formatRecommendations (jstr "🌴 Coconut - 25 trees\n🌿 Pandan - 50 clumps") =
      SJ.Result.table
        [⟨jstr "Coconut", jstr "25 trees"⟩, ⟨jstr "Pandan", jstr "50 clumps"⟩] := by
  decide

/-- C1: when no extraction strategy produces a candidate item (all four
part_002 strategies, and both script.js passes, yield an empty list), both
rewrites of `formatRecommendations` return the raw-fallback state carrying
the input text verbatim — in particular they do so on the empty string —
and, being total functions, never throw. -/
theorem c1_raw_fallback (r q : JStr)
    (h1 : P2.strat1 (P2.linesOf (P2.normalizeP2 r)) = [])
    (h2 : P2.strat2 (P2.normalizeP2 r) = [])
    (h3 : P2.strat3 (P2.normalizeP2 r) = [])
    (h4 : P2.strat4 (P2.linesOf (P2.normalizeP2 r)) = [])
    (h5 : SJ.stage1 q = []) (h6 : SJ.stage2 q = []) :
    P2.formatRecommendations r = P2.Result.fallback r ∧
    SJ.formatRecommendations q = SJ.Result.fallback q ∧
    P2.formatRecommendations (jstr "") = P2.Result.fallback (jstr "") ∧
    SJ.formatRecommendations (jstr "") = SJ.Result.fallback (jstr "") := by
  refine ⟨?_, ?_, by decide, by decide⟩
  · simp [P2.formatRecommendations, P2.extractItems, h1, h2, h3, h4]
  · simp [SJ.formatRecommendations, SJ.items, SJ.rawItems, SJ.dedup, SJ.dedupGo, h5, h6]

/-- A narrative line on which every extraction strategy fails. -/
def prose1 : JStr := jstr "The soil needs protection and care"

/-- Witness for C1: a concrete prose input discharges every hypothesis of
`c1_raw_fallback`, and both extractors indeed fall back to the raw text. -/
theorem c1_raw_fallback_witness :
    (P2.strat1 (P2.linesOf (P2.normalizeP2 prose1)) = [] ∧
     P2.strat2 (P2.normalizeP2 prose1) = [] ∧
     P2.strat3 (P2.normalizeP2 prose1) = [] ∧
     P2.strat4 (P2.linesOf (P2.normalizeP2 prose1)) = [] ∧
     SJ.stage1 prose1 = [] ∧ SJ.stage2 prose1 = []) ∧
    P2.formatRecommendations prose1 = P2.Result.fallback prose1 ∧
    SJ.formatRecommendations prose1 = SJ.Result.fallback prose1 :=
  ⟨⟨by decide, by decide, by decide, by decide, by decide, by decide⟩,
   (c1_raw_fallback prose1 prose1 (by decide) (by decide) (by decide) (by decide)
     (by decide) (by decide)).1,
   (c1_raw_fallback prose1 prose1 (by decide) (by decide) (by decide) (by decide)
     (by decide) (by decide)).2.1⟩

/-- Counterexample to C5 as stated: at the plain ASCII name `constructor`
the property access `emojiMap[name]` finds the inherited
`Object.prototype.constructor` — a function, hence truthy — so the guard
on line 275 returns it and the source yields a non-string value, not a
glyph.  The own-key table misses, the substring pass misses, and the
heuristics — had the lookup really been table-only — would have produced
the default seedling glyph instead. -/
theorem c5_proto_member_not_glyph :
    P2.getPlantEmojiJs (jstr "constructor") =
      P2.JsVal.protoFn (jstr "constructor") ∧
    P2.mapLookup (jstr "constructor") = none ∧
    (P2.sortedPairs.find? fun kp => containsSeg (jstr "constructor") kp.1) = none ∧
    P2.heuristicGlyph (jstr "constructor") = jstr "🌱" :=
  ⟨by decide, by decide, by decide, by decide⟩

/-- C5, amended: for every non-empty name whose lowercased, trimmed form is
not an inherited `Object.prototype` member name, the resolver returns the
non-empty glyph of the deterministic cascade — exact-table-match, then
longest-substring over the keys sorted by descending length (`sortedPairs`
is a length-sorted permutation of the table; `Object.keys` sees own keys
only), then category heuristics, then the default glyph — and the full
JavaScript-semantics resolver `getPlantEmojiJs` agrees with that glyph
string.  On member names such as `constructor` the source instead returns
the truthy inherited member (see `c5_proto_member_not_glyph`). -/
theorem c5_icon_resolver (n : JStr) (_h : n ≠ [])
    (hp : P2.protoMembers.contains (trimJs (lowerJs n)) = false) :
    P2.getPlantEmoji n ≠ [] ∧
    P2.getPlantEmojiJs n = P2.JsVal.str (P2.getPlantEmoji n) ∧
    P2.getPlantEmoji n = P2.getPlantEmoji n ∧
    (∀ v, P2.mapLookup (trimJs (lowerJs n)) = some v → P2.getPlantEmoji n = v) ∧
    (P2.mapLookup (trimJs (lowerJs n)) = none →
      ∀ kv, (P2.sortedPairs.find? fun kp => containsSeg (trimJs (lowerJs n)) kp.1) =
          some kv → P2.getPlantEmoji n = kv.2) ∧
    (P2.mapLookup (trimJs (lowerJs n)) = none →
      (P2.sortedPairs.find? fun kp => containsSeg (trimJs (lowerJs n)) kp.1) = none →
      P2.getPlantEmoji n = P2.heuristicGlyph (trimJs (lowerJs n))) ∧
    P2.sortedPairs.Pairwise (fun a b => b.1.length ≤ a.1.length) ∧
    P2.sortedPairs.Perm P2.emojiMap := by
  have hmap : ∀ kv ∈ P2.emojiMap, kv.2 ≠ ([] : JStr) := by decide
  have hsorted : ∀ kv ∈ P2.sortedPairs, kv.2 ≠ ([] : JStr) := by decide
  refine ⟨?_, ?_, rfl, ?_, ?_, ?_, by decide, by decide⟩
  · unfold P2.getPlantEmoji
    cases hm : P2.mapLookup (trimJs (lowerJs n)) with
    | some v =>
      simp only [hm]
      unfold P2.mapLookup at hm
      obtain ⟨kv, hfind, rfl⟩ : ∃ kv, (P2.emojiMap.find? fun kv =>
          kv.1 == trimJs (lowerJs n)) = some kv ∧ kv.2 = v := by
        cases hf : P2.emojiMap.find? fun kv => kv.1 == trimJs (lowerJs n) with
        | some kv => exact ⟨kv, rfl, by rw [hf] at hm; simpa using hm⟩
        | none => rw [hf] at hm; simp at hm
      exact hmap kv (List.mem_of_find?_eq_some hfind)
    | none =>
      simp only [hm]
      cases hf : P2.sortedPairs.find? fun kp => containsSeg (trimJs (lowerJs n)) kp.1 with
      | some kv =>
        simp only [hf]
        exact hsorted kv (List.mem_of_find?_eq_some hf)
      | none =>
        simp only [hf]
        unfold P2.heuristicGlyph
        split_ifs <;> decide
  · unfold P2.getPlantEmojiJs P2.emojiMapGet P2.getPlantEmoji
    cases hm : P2.mapLookup (trimJs (lowerJs n)) with
    | some v =>
      have hv : v ≠ ([] : JStr) := by
        unfold P2.mapLookup at hm
        obtain ⟨kv, hfind, rfl⟩ : ∃ kv, (P2.emojiMap.find? fun kv =>
            kv.1 == trimJs (lowerJs n)) = some kv ∧ kv.2 = v := by
          cases hf : P2.emojiMap.find? fun kv => kv.1 == trimJs (lowerJs n) with
          | some kv => exact ⟨kv, rfl, by rw [hf] at hm; simpa using hm⟩
          | none => rw [hf] at hm; simp at hm
        exact hmap kv (List.mem_of_find?_eq_some hfind)
      have hne : v.isEmpty = false := by
        cases v with
        | nil => exact absurd rfl hv
        | cons a t => rfl
      simp only [hm, P2.JsVal.truthy, hne, Bool.not_false, if_pos]
    | none =>
      simp only [hm, hp, Bool.false_eq_true, if_false]
      unfold P2.getPlantEmojiTail
      cases hf : P2.sortedPairs.find? fun kp => containsSeg (trimJs (lowerJs n)) kp.1 <;>
        simp only [hf]
  · intro v hv
    unfold P2.getPlantEmoji
    simp only [hv]
  · intro hm kv hf
    unfold P2.getPlantEmoji
    simp only [hm, hf]
  · intro hm hf
    unfold P2.getPlantEmoji
    simp only [hm, hf]

/-- Witness for C5 at the concrete name `bamboo`: it discharges both
hypotheses, and the resolver gives a non-empty glyph that the full
JavaScript semantics agree on. -/
theorem c5_icon_resolver_witness :
    ((jstr "bamboo" : JStr) ≠ [] ∧
     P2.protoMembers.contains (trimJs (lowerJs (jstr "bamboo"))) = false) ∧
    P2.getPlantEmoji (jstr "bamboo") ≠ [] ∧
    P2.getPlantEmojiJs (jstr "bamboo") =
      P2.JsVal.str (P2.getPlantEmoji (jstr "bamboo")) :=
  ⟨⟨by decide, by decide⟩,
   (c5_icon_resolver (jstr "bamboo") (by decide) (by decide)).1,
   (c5_icon_resolver (jstr "bamboo") (by decide) (by decide)).2.1⟩

/-- The deduplicator never emits an item whose lowercased name it has seen,
and what it emits is the first occurrence in the remaining list. -/
theorem dedupGo_find : ∀ (l : List SJ.SItem) (seen : List JStr),
    ∀ it ∈ SJ.dedupGo l seen,
      seen.contains (lowerJs it.name) = false ∧
      l.find? (fun x => lowerJs x.name == lowerJs it.name) = some it := by
  intro l
  induction l with
  | nil => intro seen it hit; simp [SJ.dedupGo] at hit
  | cons x rest ih =>
    intro seen it hit
    simp only [SJ.dedupGo] at hit
    by_cases hx : seen.contains (lowerJs x.name)
    · rw [if_pos hx] at hit
      obtain ⟨hseen, hfind⟩ := ih _ it hit
      refine ⟨hseen, ?_⟩
      rw [List.find?_cons_of_neg, hfind]
      intro hbeq
      rw [show lowerJs x.name = lowerJs it.name from by simpa using hbeq] at hx
      rw [hseen] at hx
      exact Bool.noConfusion hx
    · rw [if_neg hx] at hit
      rcases List.mem_cons.mp hit with rfl | hit2
      · refine ⟨by simpa using hx, ?_⟩
        rw [List.find?_cons_of_pos]
        simp
      · obtain ⟨hseen, hfind⟩ := ih _ it hit2
        have hxne : lowerJs x.name ≠ lowerJs it.name := by
          intro heq
          rw [List.contains_cons] at hseen
          simp [heq] at hseen
        refine ⟨?_, ?_⟩
        · rw [List.contains_cons] at hseen
          exact (Bool.or_eq_false_iff.mp hseen).2
        · rw [List.find?_cons_of_neg, hfind]
          simpa using hxne

/-- The deduplicator's output is a sublist of its input (order preserved,
entries unchanged). -/
theorem dedupGo_sublist : ∀ (l : List SJ.SItem) (seen : List JStr),
    List.Sublist (SJ.dedupGo l seen) l := by
  intro l
  induction l with
  | nil => intro seen; simp [SJ.dedupGo]
  | cons x rest ih =>
    intro seen
    simp only [SJ.dedupGo]
    split
    · exact (ih _).trans (List.sublist_cons_self _ _)
    · exact List.Sublist.cons₂ _ (ih _)

/-- The deduplicator's output has pairwise distinct lowercased names. -/
theorem dedupGo_pairwise : ∀ (l : List SJ.SItem) (seen : List JStr),
    (SJ.dedupGo l seen).Pairwise fun a b => lowerJs a.name ≠ lowerJs b.name := by
  intro l
  induction l with
  | nil => intro seen; simp [SJ.dedupGo]
  | cons x rest ih =>
    intro seen
    simp only [SJ.dedupGo]
    split
    · exact ih _
    · refine List.Pairwise.cons ?_ (ih _)
      intro b hb heq
      have hseen := (dedupGo_find rest (lowerJs x.name :: seen) b hb).1
      rw [List.contains_cons] at hseen
      simp [heq] at hseen

/-- Every input name is represented in the deduplicator's output. -/
theorem dedupGo_covers : ∀ (l : List SJ.SItem) (seen : List JStr),
    ∀ it ∈ l, seen.contains (lowerJs it.name) = false →
      ∃ it2 ∈ SJ.dedupGo l seen, lowerJs it2.name = lowerJs it.name := by
  intro l
  induction l with
  | nil => simp
  | cons x rest ih =>
    intro seen it hit hnot
    simp only [SJ.dedupGo]
    rcases List.mem_cons.mp hit with rfl | hit2
    · rw [if_neg (by simpa using hnot)]
      exact ⟨it, List.mem_cons_self _ _, rfl⟩
    · by_cases hx : seen.contains (lowerJs x.name)
      · rw [if_pos hx]
        exact ih seen it hit2 hnot
      · rw [if_neg hx]
        by_cases heq : lowerJs x.name = lowerJs it.name
        · exact ⟨x, List.mem_cons_self _ _, heq⟩
        · have hnot2 : (lowerJs x.name :: seen).contains (lowerJs it.name) = false := by
            rw [List.contains_cons]
            simp only [Bool.or_eq_false_iff]
            exact ⟨by simpa using fun hh => heq hh.symm, hnot⟩
          obtain ⟨it2, h2, he⟩ := ih _ it hit2 hnot2
          exact ⟨it2, List.mem_cons_of_mem _ h2, he⟩

/-- C3: the emitted item list holds at most one entry per case-insensitive
name (pairwise distinct lowered names); it is an order-preserving sublist
of the candidate list in which every candidate name is represented, and
each emitted entry is the first candidate bearing its lowercased name
(hence keeps the first occurrence's casing and values); in particular the
lines `Mahogany`/`mahogany` collapse to the single first-seen item. -/
theorem c3_dedup_first_wins (r : JStr) :
    (SJ.items r).Pairwise (fun a b => lowerJs a.name ≠ lowerJs b.name) ∧
    (SJ.items r).Sublist (SJ.rawItems r) ∧
    (∀ it ∈ SJ.rawItems r, ∃ it2 ∈ SJ.items r, lowerJs it2.name = lowerJs it.name) ∧
    (∀ it ∈ SJ.items r,
      (SJ.rawItems r).find? (fun x => lowerJs x.name == lowerJs it.name) = some it) ∧
    SJ.items (jstr "Mahogany - 25 trees\nmahogany - 30 trees") =
      [⟨jstr "Mahogany", jstr "25 trees"⟩] := by
  refine ⟨dedupGo_pairwise _ _, dedupGo_sublist _ _, ?_,
    fun it hit => (dedupGo_find _ _ it hit).2, by decide⟩
  intro it hit
  exact dedupGo_covers _ [] it hit (by simp)

/-- The shape the spec calls a structured data line, following the spec's
words (defined from the spec, for comparison with the implementation):
some separator unit (hyphen, en dash or colon) has a decimal digit
immediately adjacent, and the line ends in a short trailing word of one to
ten letters. -/
def specStructuredLine (l : JStr) : Bool :=
  ((List.range l.length).any fun i =>
    (match l.get? i with | some c => SJ.sepUnit c | none => false) &&
    ((match l.get? (i + 1) with | some d => isDigitU d | none => false) ||
     (decide (i ≠ 0) &&
       match l.get? (i - 1) with | some d => isDigitU d | none => false))) &&
  (let w := List.rtakeWhile isAsciiAlpha l
   !w.isEmpty && w.length ≤ 10)

/-- Counterexample to C7: `Quantity:25 trees` carries a digit adjacent to a
separator and a short trailing word, yet the noise filter drops it (its
`quantity:` vocabulary rule fires). -/
theorem c7_noise_drops_structured :
    specStructuredLine (jstr "Quantity:25 trees") = true ∧
    SJ.noiseKeep (jstr "Quantity:25 trees") = false := by
  exact ⟨by decide, by decide⟩

/-- C7 (amended): a line with a digit adjacent to a separator and a short
trailing word is retained by the noise filter provided it does not start
with a header/emphasis marker, contains none of the hedging/meta
vocabulary, and is at most 100 units long (the digit it carries also
disarms the `recommended`-without-digits rule). -/
theorem c7_noise_keeps_structured (l : JStr)
    (hs : specStructuredLine l = true)
    (hh : SJ.startsHeader l = false)
    (hv : SJ.vocabHit l = false)
    (hl : l.length ≤ 100) :
    SJ.noiseKeep l = true := by
  unfold specStructuredLine at hs
  rw [Bool.and_eq_true] at hs
  obtain ⟨hA, hB⟩ := hs
  rw [List.any_eq_true] at hA
  obtain ⟨i, _hi, hcond⟩ := hA
  rw [Bool.and_eq_true] at hcond
  obtain ⟨_hsep, hadj⟩ := hcond
  have hd : SJ.hasDigit l = true := by
    unfold SJ.hasDigit
    rw [List.any_eq_true]
    rcases Bool.or_eq_true_iff.mp hadj with hnext | hprev
    · cases hget : l.get? (i + 1) with
      | some d => exact ⟨d, List.get?_mem hget, by rw [hget] at hnext; exact hnext⟩
      | none => rw [hget] at hnext; exact Bool.noConfusion hnext
    · rw [Bool.and_eq_true] at hprev
      cases hget : l.get? (i - 1) with
      | some d => exact ⟨d, List.get?_mem hget, by rw [hget] at hprev; exact hprev.2⟩
      | none => rw [hget] at hprev; exact Bool.noConfusion hprev.2
  have hne : l.isEmpty = false := by
    cases l with
    | nil =>
      rw [Bool.and_eq_true] at hB
      simp [List.rtakeWhile] at hB
    | cons c rest => rfl
  unfold SJ.noiseKeep SJ.noiseSkip SJ.recomClause
  simp [hh, hv, hl, hd, hne, Nat.not_lt.mpr hl]

/-- Witness for the amended C7: `Coconut-25 trees` has the structured shape
and sails through the filter. -/
theorem c7_noise_keeps_structured_witness :
    (specStructuredLine (jstr "Coconut-25 trees") = true ∧
     SJ.startsHeader (jstr "Coconut-25 trees") = false ∧
     SJ.vocabHit (jstr "Coconut-25 trees") = false ∧
     (jstr "Coconut-25 trees").length ≤ 100) ∧
    SJ.noiseKeep (jstr "Coconut-25 trees") = true :=
  ⟨⟨by decide, by decide, by decide, by decide⟩,
   c7_noise_keeps_structured _ (by decide) (by decide) (by decide) (by decide)⟩

/-- Counterexample to C9: `Mulch well` is non-empty unbulleted prose (no
line matches the bullet-marker shape), yet the Bulletizer emits no bullet
at all — the fallback is per-line with a minimum length of 11, not a
segmentation on sentence punctuation. -/
theorem c9_prose_yields_nothing :
    (jstr "Mulch well" : JStr) ≠ [] ∧
    ((SJ.sbLines (jstr "Mulch well")).all fun l => !SJ.bulletShape (trimJs l)) = true ∧
    SJ.sectionBullets (jstr "Mulch well") = [] := by
  exact ⟨by decide, by decide, by decide⟩

/-- C9 (amended): when no line matches the bullet-marker shape, the
Bulletizer falls back to a per-line segmentation, emitting exactly those
filtered lines whose trimmed length lies strictly between 10 and 200 and
which match no skip pattern; prose yields bullets only when some line
meets these bounds, and no sentence-punctuation segmentation happens. -/
theorem c9_bulletizer_fallback (t : JStr)
    (h : ∀ l ∈ SJ.sbLines t, SJ.bulletShape (trimJs l) = false) :
    SJ.sectionBullets t = (SJ.sbLines t).filterMap SJ.fallbackContent := by
  have hb : SJ.sbHasBullets t = false := by
    unfold SJ.sbHasBullets
    rw [List.any_eq_false]
    intro l hl
    simp [h l hl]
  by_cases ht : t.isEmpty
  · have ht0 : t = [] := by cases t with | nil => rfl | cons c r => simp at ht
    subst ht0
    decide
  · by_cases he : (SJ.sbLines t).isEmpty
    · have he0 : SJ.sbLines t = [] := by
        cases hc : SJ.sbLines t with
        | nil => rfl
        | cons a b => rw [hc] at he; simp at he
      simp [SJ.sectionBullets, ht, hb, he0]
    · simp [SJ.sectionBullets, ht, hb, he]

/-- A two-sentence prose line for the amended C9. -/
def prose2 : JStr := jstr "Plant trees near the shore. Water them often."

/-- Witness for the amended C9: unbulleted prose falls back to the one
per-line bullet (the sentences are not split apart). -/
theorem c9_bulletizer_fallback_witness :
    (∀ l ∈ SJ.sbLines prose2, SJ.bulletShape (trimJs l) = false) ∧
    SJ.sectionBullets prose2 = [prose2] :=
  ⟨by decide, (c9_bulletizer_fallback prose2 (by decide)).trans (by decide)⟩

/-- Splitting a list by a predicate and its complement partitions its
length. -/
theorem length_filter_add_compl {α : Type} (l : List α) (p : α → Bool) :
    (l.filter p).length + (l.filter fun x => !p x).length = l.length := by
  induction l with
  | nil => rfl
  | cons a l ih =>
    by_cases h : p a <;> simp [List.filter_cons, h, ← ih] <;> omega

/-- `filterMap` keeps the length when the function succeeds everywhere. -/
theorem length_filterMap_of_all_some {α β : Type} (l : List α) (f : α → Option β)
    (h : ∀ x ∈ l, f x ≠ none) : (l.filterMap f).length = l.length := by
  induction l with
  | nil => rfl
  | cons a l ih =>
    cases hf : f a with
    | none => exact absurd hf (h a (List.mem_cons_self _ _))
    | some b =>
      simp [List.filterMap_cons, hf, ih fun x hx => h x (List.mem_cons_of_mem _ hx)]

/-- C8: on a block of five bullet-marked lines of which exactly two exceed
the 200-unit length threshold (and the short ones are ordinary bullets:
no skip vocabulary, no section header, content longer than five units),
the Bulletizer emits exactly the three short lines' contents, in source
order. -/
theorem c8_bulletizer_five_lines (t : JStr) (L : List JStr)
    (hL : SJ.sbAllLines t = L) (h5 : L.length = 5) (ht : t ≠ [])
    (hb : ∀ l ∈ L, SJ.bulletShape (trimJs l) = true)
    (h2 : (L.filter fun l => decide (200 < (trimJs l).length)).length = 2)
    (hok : ∀ l ∈ L, (trimJs l).length ≤ 200 →
      SJ.skipAny (trimJs l) = false ∧ reTest SJ.secHeadRE (trimJs l) = false ∧
      SJ.bulletContent l ≠ none) :
    SJ.sectionBullets t =
      (L.filter fun l => decide ((trimJs l).length ≤ 200)).filterMap SJ.bulletContent ∧
    (SJ.sectionBullets t).length = 3 := by
  have hkeep : ∀ l ∈ L, SJ.sbKeep l = decide ((trimJs l).length ≤ 200) := by
    intro l hl
    unfold SJ.sbKeep
    by_cases hlen : (trimJs l).length ≤ 200
    · obtain ⟨hskip, hhead, _⟩ := hok l hl hlen
      have hne : (trimJs l).isEmpty = false := by
        cases hc : trimJs l with
        | nil => have := hb l hl; rw [hc] at this; exact absurd this (by decide)
        | cons a r => rfl
      simp [hne, hskip, hhead, Nat.not_lt.mpr hlen, hlen]
    · simp [Nat.lt_of_not_le hlen, hlen]
  have hlines : SJ.sbLines t =
      L.filter fun l => decide ((trimJs l).length ≤ 200) := by
    unfold SJ.sbLines
    rw [hL]
    exact List.filter_congr hkeep
  have hcompl : ∀ l ∈ L,
      (fun x => !(decide (200 < (trimJs x).length))) l =
      (fun x => decide ((trimJs x).length ≤ 200)) l := by
    intro l _
    by_cases hc : (trimJs l).length ≤ 200
    · simp [hc, Nat.not_lt.mpr hc]
    · simp [hc, Nat.lt_of_not_le hc]
  have hlen3 : (L.filter fun l => decide ((trimJs l).length ≤ 200)).length = 3 := by
    have hsum := length_filter_add_compl L fun l => decide (200 < (trimJs l).length)
    rw [List.filter_congr hcompl] at hsum
    omega
  have htne : t.isEmpty = false := by
    cases t with
    | nil => exact absurd rfl ht
    | cons a r => rfl
  have hbul : SJ.sbHasBullets t = true := by
    unfold SJ.sbHasBullets
    rw [List.any_eq_true, hlines]
    obtain ⟨l, hl⟩ := List.exists_mem_of_length_pos (by omega :
      0 < (L.filter fun l => decide ((trimJs l).length ≤ 200)).length)
    exact ⟨l, hl, hb l (List.mem_of_mem_filter hl)⟩
  have hmain : SJ.sectionBullets t =
      (L.filter fun l => decide ((trimJs l).length ≤ 200)).filterMap SJ.bulletContent := by
    unfold SJ.sectionBullets
    rw [htne, hbul, hlines]
    simp
  refine ⟨hmain, ?_⟩
  rw [hmain, length_filterMap_of_all_some _ _ ?_, hlen3]
  intro l hl
  exact (hok l (List.mem_of_mem_filter hl)
    (by simpa using (List.mem_filter.mp hl).2)).2.2

/-- A five-line advice block: three ordinary bullets and two bullets longer
than 200 units. -/
def block5 : JStr :=
  jstr "- Plant vetiver along the edges\n" ++ (jstr "- " ++ List.replicate 210 0x61) ++
  jstr "\n- Water the seedlings daily\n" ++ (jstr "- " ++ List.replicate 210 0x62) ++
  jstr "\n- Mulch the base of each tree"

/-- The five lines of `block5`. -/
def block5Lines : List JStr :=
  [jstr "- Plant vetiver along the edges", jstr "- " ++ List.replicate 210 0x61,
   jstr "- Water the seedlings daily", jstr "- " ++ List.replicate 210 0x62,
   jstr "- Mulch the base of each tree"]

/-- Witness for C8: the concrete five-line block yields exactly its three
short bullets, in order. -/
theorem c8_bulletizer_five_lines_witness :
    (SJ.sbAllLines block5 = block5Lines ∧ block5Lines.length = 5 ∧ block5 ≠ [] ∧
     (∀ l ∈ block5Lines, SJ.bulletShape (trimJs l) = true) ∧
     (block5Lines.filter fun l => decide (200 < (trimJs l).length)).length = 2) ∧
    SJ.sectionBullets block5 =
      [jstr "Plant vetiver along the edges", jstr "Water the seedlings daily",
       jstr "Mulch the base of each tree"] ∧
    (SJ.sectionBullets block5).length = 3 := by
  have hmain := c8_bulletizer_five_lines block5 block5Lines (by decide) (by decide)
    (by decide) (by decide) (by decide) (by decide)
  exact ⟨⟨by decide, by decide, by decide, by decide, by decide⟩,
    hmain.1.trans (by decide), hmain.2⟩

/-! ## Idempotence analysis of the renderer-safe sanitizer (C6) -/

/-- `dropWhile` and `rdropWhile` commute. -/
theorem dropWhile_rdropWhile_comm (p : Nat → Bool) (l : JStr) :
    (List.rdropWhile p l).dropWhile p = List.rdropWhile p (l.dropWhile p) := by
  induction l using List.reverseRecOn with
  | nil => simp [List.rdropWhile]
  | append_singleton M x ih =>
    by_cases hx : p x
    · rw [List.rdropWhile_concat_pos p M x hx, ih, List.dropWhile_append]
      by_cases hM : (M.dropWhile p).isEmpty
      · rw [if_pos hM]
        have hM0 : M.dropWhile p = [] := by
          cases h : M.dropWhile p with
          | nil => rfl
          | cons a t => rw [h] at hM; simp at hM
        rw [hM0]
        simp [List.dropWhile, hx, List.rdropWhile]
      · rw [if_neg hM, List.rdropWhile_concat_pos p _ x hx]
    · rw [List.rdropWhile_concat_neg p M x hx, List.dropWhile_append]
      by_cases hM : (M.dropWhile p).isEmpty
      · rw [if_pos hM]
        simp [List.dropWhile, hx, List.rdropWhile]
      · rw [if_neg hM, List.rdropWhile_concat_neg p _ x hx]

/-- `trim` is idempotent. -/
theorem trimJs_idem (s : JStr) : trimJs (trimJs s) = trimJs s := by
  unfold trimJs
  rw [dropWhile_rdropWhile_comm, List.dropWhile_idempotent, List.rdropWhile_idempotent]

/-- A trim fixpoint is a fixpoint of both one-sided trims. -/
theorem trim_eq_self_parts {s : JStr} (h : trimJs s = s) :
    s.dropWhile isJsWhite = s ∧ List.rdropWhile isJsWhite s = s := by
  have hsub : (s.dropWhile isJsWhite).length ≤ s.length :=
    (List.dropWhile_suffix _).sublist.length_le
  have htr : (trimJs s).length ≤ (s.dropWhile isJsWhite).length := by
    unfold trimJs
    exact (List.rdropWhile_prefix _ _).sublist.length_le
  rw [h] at htr
  have h1 : s.dropWhile isJsWhite = s :=
    (List.dropWhile_suffix _).sublist.eq_of_length (by omega)
  refine ⟨h1, ?_⟩
  unfold trimJs at h
  rw [h1] at h
  exact h

/-- A contiguous piece of a chain is a chain. -/
theorem chainWithin {R : Nat → Nat → Prop} {l l1 : JStr} (h : List.Chain' R l)
    (hw : List.IsInfix l1 l) : List.Chain' R l1 :=
  List.Chain'.infix h hw

/-- `trimJs s` is a contiguous piece of `s`. -/
theorem trimJsWithin (s : JStr) : List.IsInfix (trimJs s) s :=
  ((List.rdropWhile_prefix isJsWhite (s.dropWhile isJsWhite)).isInfix).trans
    ((List.dropWhile_suffix isJsWhite).isInfix)

/-- Units of `trimJs s` come from `s`. -/
theorem mem_trimJs {c : Nat} {s : JStr} (h : c ∈ trimJs s) : c ∈ s :=
  (trimJsWithin s).sublist.subset h

/-- `splitNl` never returns the empty list of lines. -/
theorem splitNl_ne_nil (s : JStr) : splitNl s ≠ [] := by
  cases s with
  | nil => simp [splitNl]
  | cons c rest =>
    simp only [splitNl]
    by_cases hc : c == 0x0A
    · simp [hc]
    · rw [if_neg (by simpa using hc)]
      cases splitNl rest <;> simp

/-- Lines contain no newline unit. -/
theorem noNl_of_mem_splitNl : ∀ (s : JStr), ∀ l ∈ splitNl s, (0x0A : Nat) ∉ l := by
  intro s
  induction s with
  | nil =>
    intro l hl
    simp [splitNl] at hl
    simp [hl]
  | cons c rest ih =>
    intro l hl
    simp only [splitNl] at hl
    by_cases hc : c = 0x0A
    · rw [if_pos (by simpa using hc)] at hl
      rcases List.mem_cons.mp hl with rfl | h2
      · simp
      · exact ih l h2
    · rw [if_neg (by simpa using hc)] at hl
      cases hrest : splitNl rest with
      | nil => exact absurd hrest (splitNl_ne_nil rest)
      | cons h t =>
        rw [hrest] at hl
        rcases List.mem_cons.mp hl with rfl | h2
        · intro hmem
          rcases List.mem_cons.mp hmem with heq | h3
          · exact hc heq.symm
          · exact ih h (by rw [hrest]; exact List.mem_cons_self _ _) h3
        · exact ih l (by rw [hrest]; exact List.mem_cons_of_mem _ h2)

/-- A newline-free string is a single line. -/
theorem splitNl_of_noNl : ∀ (l : JStr), (0x0A : Nat) ∉ l → splitNl l = [l] := by
  intro l
  induction l with
  | nil => intro _; rfl
  | cons c rest ih =>
    intro h
    simp only [splitNl]
    rw [if_neg (by simp only [beq_iff_eq]; exact fun hc => h (by simp [hc]))]
    rw [ih fun hm => h (List.mem_cons_of_mem _ hm)]

/-- Splitting after a newline-free prefix peels one line. -/
theorem splitNl_append_nl : ∀ (l r : JStr), (0x0A : Nat) ∉ l →
    splitNl (l ++ 0x0A :: r) = l :: splitNl r := by
  intro l r
  induction l with
  | nil => intro _; simp [splitNl]
  | cons c l2 ih =>
    intro h
    simp only [List.cons_append, splitNl]
    rw [if_neg (by simp only [beq_iff_eq]; exact fun hc => h (by simp [hc]))]
    simp only [List.append_eq]
    rw [ih fun hm => h (List.mem_cons_of_mem _ hm)]

/-- `splitNl` inverts `joinNl` on newline-free lines. -/
theorem splitNl_joinNl : ∀ (M : List JStr), M ≠ [] →
    (∀ l ∈ M, (0x0A : Nat) ∉ l) → splitNl (joinNl M) = M := by
  intro M
  induction M with
  | nil => intro h; exact absurd rfl h
  | cons l M2 ih =>
    intro _ hno
    cases M2 with
    | nil => simpa [joinNl] using splitNl_of_noNl l (hno l (List.mem_cons_self _ _))
    | cons l2 M3 =>
      rw [show joinNl (l :: l2 :: M3) = l ++ 0x0A :: joinNl (l2 :: M3) from rfl]
      rw [splitNl_append_nl _ _ (hno l (List.mem_cons_self _ _))]
      rw [ih (by simp) fun x hx => hno x (List.mem_cons_of_mem _ hx)]

/-- `joinNl` over a snoc. -/
theorem joinNl_concat : ∀ (M : List JStr) (l : JStr), M ≠ [] →
    joinNl (M ++ [l]) = joinNl M ++ 0x0A :: l := by
  intro M
  induction M with
  | nil => intro l h; exact absurd rfl h
  | cons a M2 ih =>
    intro l _
    cases M2 with
    | nil => rfl
    | cons b M3 =>
      rw [show (a :: b :: M3) ++ [l] = a :: ((b :: M3) ++ [l]) from rfl]
      rw [show joinNl (a :: b :: M3) = a ++ 0x0A :: joinNl (b :: M3) from rfl]
      rw [show joinNl (a :: (b :: M3 ++ [l])) = a ++ 0x0A :: joinNl (b :: M3 ++ [l]) from ?_]
      · rw [ih l (by simp)]
        simp
      · cases M3 <;> rfl

/-- Units of a join come from the lines or are the separator. -/
theorem mem_joinNl {c : Nat} : ∀ {M : List JStr}, c ∈ joinNl M →
    c = 0x0A ∨ ∃ l ∈ M, c ∈ l := by
  intro M
  induction M with
  | nil => intro h; simp [joinNl] at h
  | cons l M2 ih =>
    cases M2 with
    | nil =>
      intro h
      exact Or.inr ⟨l, by simp, by simpa [joinNl] using h⟩
    | cons b M3 =>
      intro h
      rw [show joinNl (l :: b :: M3) = l ++ 0x0A :: joinNl (b :: M3) from rfl] at h
      rcases List.mem_append.mp h with h1 | h2
      · exact Or.inr ⟨l, List.mem_cons_self _ _, h1⟩
      · rcases List.mem_cons.mp h2 with rfl | h3
        · exact Or.inl rfl
        · rcases ih h3 with h4 | ⟨l2, hl2, hc⟩
          · exact Or.inl h4
          · exact Or.inr ⟨l2, List.mem_cons_of_mem _ hl2, hc⟩

/-- The first line is a prefix of the string. -/
theorem splitNl_head_pre : ∀ (s : JStr) (h : JStr) (t : List JStr),
    splitNl s = h :: t → List.IsPrefix h s := by
  intro s
  induction s with
  | nil =>
    intro h t he
    simp [splitNl] at he
    simp [he.1]
  | cons c rest ih =>
    intro h t he
    simp only [splitNl] at he
    by_cases hc : c = 0x0A
    · rw [if_pos (by simpa using hc)] at he
      injection he with h1 _
      rw [← h1]
      exact List.nil_prefix
    · rw [if_neg (by simpa using hc)] at he
      cases hrest : splitNl rest with
      | nil => exact absurd hrest (splitNl_ne_nil rest)
      | cons h2 t2 =>
        rw [hrest] at he
        have he2 : (c :: h2) :: t2 = h :: t := he
        injection he2 with h1 _
        obtain ⟨r, hr⟩ := ih h2 t2 hrest
        refine ⟨r, ?_⟩
        rw [← h1, ← hr]
        rfl

/-- Every line is an infix of the string. -/
theorem memSplitNlWithin : ∀ (s : JStr) (l : JStr), l ∈ splitNl s →
    List.IsInfix l s := by
  intro s
  induction s with
  | nil =>
    intro l hl
    simp [splitNl] at hl
    simp [hl]
  | cons c rest ih =>
    intro l hl
    simp only [splitNl] at hl
    by_cases hc : c = 0x0A
    · rw [if_pos (by simpa using hc)] at hl
      rcases List.mem_cons.mp hl with rfl | h2
      · exact List.nil_infix
      · exact List.infix_cons (ih l h2)
    · rw [if_neg (by simpa using hc)] at hl
      cases hrest : splitNl rest with
      | nil => exact absurd hrest (splitNl_ne_nil rest)
      | cons h2 t2 =>
        rw [hrest] at hl
        rcases List.mem_cons.mp hl with rfl | h3
        · obtain ⟨r, hr⟩ := splitNl_head_pre rest h2 t2 hrest
          exact (show List.IsPrefix (c :: h2) (c :: rest) from
            ⟨r, by rw [← hr]; rfl⟩).isInfix
        · exact List.infix_cons (ih l (by rw [hrest]; exact List.mem_cons_of_mem _ h3))

/-- Dropping leading white space from a join of trimmed lines drops the
leading empty lines. -/
theorem dropWhile_joinNl_trimmed : ∀ (M : List JStr), (∀ l ∈ M, trimJs l = l) →
    (joinNl M).dropWhile isJsWhite = joinNl (M.dropWhile fun l => l.isEmpty) := by
  intro M
  induction M with
  | nil => intro _; rfl
  | cons l M2 ih =>
    intro htr
    cases hl : l with
    | nil =>
      cases M2 with
      | nil => rfl
      | cons b M3 =>
        rw [show joinNl ([] :: b :: M3) = [] ++ 0x0A :: joinNl (b :: M3) from rfl]
        rw [show (([] : JStr) ++ 0x0A :: joinNl (b :: M3)).dropWhile isJsWhite =
          (0x0A :: joinNl (b :: M3)).dropWhile isJsWhite from rfl]
        rw [show (0x0A :: joinNl (b :: M3)).dropWhile isJsWhite =
          (joinNl (b :: M3)).dropWhile isJsWhite from by simp [List.dropWhile, isJsWhite]]
        rw [ih fun x hx => htr x (List.mem_cons_of_mem _ hx)]
        rfl
    | cons c l2 =>
      have hltr : trimJs (c :: l2) = c :: l2 := by rw [← hl]; exact htr l (by simp [hl])
      have hhead : isJsWhite c = false := by
        have hdw := (trim_eq_self_parts hltr).1
        rw [List.dropWhile_eq_self_iff] at hdw
        simpa using hdw (by simp)
      have hdwl : (c :: l2).dropWhile isJsWhite = c :: l2 := (trim_eq_self_parts hltr).1
      have : (joinNl ((c :: l2) :: M2)).dropWhile isJsWhite =
          joinNl ((c :: l2) :: M2) := by
        cases M2 with
        | nil => simpa [joinNl] using hdwl
        | cons b M3 =>
          rw [show joinNl ((c :: l2) :: b :: M3) =
            c :: (l2 ++ 0x0A :: joinNl (b :: M3)) from rfl]
          rw [List.dropWhile_cons, if_neg (by simp [hhead])]
      rw [this]
      rw [show (((c :: l2) :: M2).dropWhile fun l => l.isEmpty) = (c :: l2) :: M2 from by
        simp [List.dropWhile]]

/-- Dropping trailing white space from a join of trimmed lines drops the
trailing empty lines. -/
theorem rdropWhile_joinNl_trimmed : ∀ (M : List JStr), (∀ l ∈ M, trimJs l = l) →
    List.rdropWhile isJsWhite (joinNl M) =
      joinNl (List.rdropWhile (fun l => l.isEmpty) M) := by
  intro M
  induction M using List.reverseRecOn with
  | nil => intro _; rfl
  | append_singleton M2 l ih =>
    intro htr
    cases hM2 : M2 with
    | nil =>
      cases hl : l with
      | nil => rfl
      | cons c l2 =>
        have hltr : trimJs (c :: l2) = c :: l2 := by
          rw [← hl]
          exact htr l (by simp)
        have hrd : List.rdropWhile isJsWhite (c :: l2) = c :: l2 :=
          (trim_eq_self_parts hltr).2
        simpa [joinNl, List.rdropWhile_singleton] using hrd
    | cons a M3 =>
      rw [← hM2, joinNl_concat _ l (by rw [hM2]; simp)]
      cases hl : l with
      | nil =>
        rw [show (joinNl M2 ++ 0x0A :: ([] : JStr)) = joinNl M2 ++ [0x0A] from rfl]
        rw [List.rdropWhile_concat_pos isJsWhite (joinNl M2) 0x0A (by simp [isJsWhite])]
        rw [ih (fun x hx => htr x (List.mem_append_left _ hx))]
        rw [List.rdropWhile_concat_pos (fun l => l.isEmpty) M2 [] (by simp)]
      | cons c l2 =>
        have hltr : trimJs (c :: l2) = c :: l2 := by
          rw [← hl]
          exact htr l (List.mem_append_right _ (by simp))
        have hrd : List.rdropWhile isJsWhite (c :: l2) = c :: l2 :=
          (trim_eq_self_parts hltr).2
        have hlast : ∀ hne : (c :: l2 : JStr) ≠ [],
            ¬ isJsWhite ((c :: l2).getLast hne) = true :=
          List.rdropWhile_eq_self_iff.mp hrd
        have hwhole : List.rdropWhile isJsWhite (joinNl M2 ++ 0x0A :: c :: l2) =
            joinNl M2 ++ 0x0A :: c :: l2 := by
          rw [List.rdropWhile_eq_self_iff]
          intro hne
          rw [List.getLast_append_of_ne_nil (by simp : (0x0A :: c :: l2 : JStr) ≠ [])]
          intro hw
          exact hlast (by simp) (by
            rw [show (0x0A :: c :: l2 : JStr).getLast (by simp) =
              (c :: l2).getLast (by simp) from List.getLast_cons (by simp)] at hw
            exact hw)
        rw [hwhole]
        rw [List.rdropWhile_concat_neg (fun l => l.isEmpty) M2 (c :: l2) (by simp)]
        rw [joinNl_concat _ _ (by rw [hM2]; simp)]

/-- Output units of the collapser: class units become the space. -/
theorem collapseGo_mem : ∀ (s : JStr) (b : Bool) (c : Nat),
    c ∈ collapseGo P2.isSpTab b s → P2.isSpTab c = false ∨ c = 0x20 := by
  intro s
  induction s with
  | nil => intro b c h; simp [collapseGo] at h
  | cons a rest ih =>
    intro b c h
    by_cases ha : P2.isSpTab a
    · cases b with
      | true =>
        rw [show collapseGo P2.isSpTab true (a :: rest) =
          collapseGo P2.isSpTab true rest from by simp [collapseGo, ha]] at h
        exact ih true c h
      | false =>
        rw [show collapseGo P2.isSpTab false (a :: rest) =
          0x20 :: collapseGo P2.isSpTab true rest from by simp [collapseGo, ha]] at h
        rcases List.mem_cons.mp h with rfl | h2
        · exact Or.inr rfl
        · exact ih true c h2
    · rw [show collapseGo P2.isSpTab b (a :: rest) =
        a :: collapseGo P2.isSpTab false rest from by cases b <;> simp [collapseGo, ha]] at h
      rcases List.mem_cons.mp h with rfl | h2
      · exact Or.inl (by simpa using ha)
      · exact ih false c h2

/-- Output units of the collapser come from the input or are the space. -/
theorem collapseGo_mem_src : ∀ (s : JStr) (b : Bool) (c : Nat),
    c ∈ collapseGo P2.isSpTab b s → c = 0x20 ∨ c ∈ s := by
  intro s
  induction s with
  | nil => intro b c h; simp [collapseGo] at h
  | cons a rest ih =>
    intro b c h
    by_cases ha : P2.isSpTab a
    · cases b with
      | true =>
        rw [show collapseGo P2.isSpTab true (a :: rest) =
          collapseGo P2.isSpTab true rest from by simp [collapseGo, ha]] at h
        rcases ih true c h with h1 | h1
        · exact Or.inl h1
        · exact Or.inr (List.mem_cons_of_mem _ h1)
      | false =>
        rw [show collapseGo P2.isSpTab false (a :: rest) =
          0x20 :: collapseGo P2.isSpTab true rest from by simp [collapseGo, ha]] at h
        rcases List.mem_cons.mp h with rfl | h2
        · exact Or.inl rfl
        · rcases ih true c h2 with h1 | h1
          · exact Or.inl h1
          · exact Or.inr (List.mem_cons_of_mem _ h1)
    · rw [show collapseGo P2.isSpTab b (a :: rest) =
        a :: collapseGo P2.isSpTab false rest from by cases b <;> simp [collapseGo, ha]] at h
      rcases List.mem_cons.mp h with rfl | h2
      · exact Or.inr (List.mem_cons_self _ _)
      · rcases ih false c h2 with h1 | h1
        · exact Or.inl h1
        · exact Or.inr (List.mem_cons_of_mem _ h1)

/-- The collapser's output never holds two adjacent spaces, and its head is
a space only when it was called outside a run. -/
theorem collapseGo_chain : ∀ (s : JStr) (b : Bool),
    (collapseGo P2.isSpTab b s).Chain' (fun x y => ¬(x = 0x20 ∧ y = 0x20)) ∧
    (∀ d r, collapseGo P2.isSpTab b s = d :: r →
      P2.isSpTab d = false ∨ (d = 0x20 ∧ b = false)) := by
  intro s
  induction s with
  | nil =>
    intro b
    exact ⟨List.chain'_nil, by intro d r h; simp [collapseGo] at h⟩
  | cons a rest ih =>
    intro b
    by_cases ha : P2.isSpTab a
    · cases b with
      | true =>
        rw [show collapseGo P2.isSpTab true (a :: rest) =
          collapseGo P2.isSpTab true rest from by simp [collapseGo, ha]]
        refine ⟨(ih true).1, ?_⟩
        intro d r h
        rcases (ih true).2 d r h with h1 | ⟨_, h2⟩
        · exact Or.inl h1
        · exact absurd h2 (by simp)
      | false =>
        rw [show collapseGo P2.isSpTab false (a :: rest) =
          0x20 :: collapseGo P2.isSpTab true rest from by simp [collapseGo, ha]]
        constructor
        · rw [List.chain'_cons']
          refine ⟨?_, (ih true).1⟩
          intro y hy
          cases hgo : collapseGo P2.isSpTab true rest with
          | nil => rw [hgo] at hy; simp at hy
          | cons d r =>
            rw [hgo] at hy
            simp only [List.head?_cons, Option.mem_def, Option.some.injEq] at hy
            rcases (ih true).2 d r hgo with h1 | ⟨_, hfalse⟩
            · intro hpair
              rw [hy, hpair.2] at h1
              simp [P2.isSpTab] at h1
            · simp at hfalse
        · intro d r h
          injection h with h1 _
          exact Or.inr ⟨h1.symm, rfl⟩
    · rw [show collapseGo P2.isSpTab b (a :: rest) =
        a :: collapseGo P2.isSpTab false rest from by cases b <;> simp [collapseGo, ha]]
      constructor
      · rw [List.chain'_cons']
        refine ⟨?_, (ih false).1⟩
        intro y _ hpair
        exact ha (by rw [hpair.1]; simp [P2.isSpTab])
      · intro d r h
        injection h with h1 _
        exact Or.inl (by rw [← h1]; simpa using ha)

/-- The collapser fixes a string with no tab-class unit other than isolated
spaces. -/
theorem collapseGo_eq_self_aux : ∀ (s : JStr) (b : Bool),
    (∀ c ∈ s, P2.isSpTab c = false ∨ c = 0x20) →
    s.Chain' (fun x y => ¬(x = 0x20 ∧ y = 0x20)) →
    (b = true → ∀ d r, s = d :: r → P2.isSpTab d = false) →
    collapseGo P2.isSpTab b s = s := by
  intro s
  induction s with
  | nil => intro b _ _ _; cases b <;> rfl
  | cons a rest ih =>
    intro b hall hch hhead
    by_cases ha : P2.isSpTab a
    · cases b with
      | true => exact absurd (hhead rfl a rest rfl) (by simp [ha])
      | false =>
        have ha20 : a = 0x20 := (hall a (by simp)).resolve_left (by simp [ha])
        rw [show collapseGo P2.isSpTab false (a :: rest) =
          0x20 :: collapseGo P2.isSpTab true rest from by simp [collapseGo, ha]]
        rw [show (a :: rest : JStr) = 0x20 :: rest from by rw [ha20]]
        congr 1
        refine ih true (fun c hc => hall c (by simp [hc])) hch.tail ?_
        intro _ d r hdr
        subst hdr
        have hpair : ¬(a = 0x20 ∧ d = 0x20) := (List.chain'_cons.mp hch).1
        rcases hall d (by simp) with h | h
        · exact h
        · exact absurd ⟨ha20, h⟩ hpair
    · rw [show collapseGo P2.isSpTab b (a :: rest) =
        a :: collapseGo P2.isSpTab false rest from by cases b <;> simp [collapseGo, ha]]
      congr 1
      exact ih false (fun c hc => hall c (by simp [hc])) hch.tail (by simp)

/-- `joinNl` preserves the no-adjacent-spaces invariant. -/
theorem chain'_joinNl_sp : ∀ (M : List JStr),
    (∀ l ∈ M, l.Chain' (fun x y => ¬(x = 0x20 ∧ y = 0x20))) →
    (joinNl M).Chain' (fun x y => ¬(x = 0x20 ∧ y = 0x20)) := by
  intro M
  induction M with
  | nil => intro _; exact List.chain'_nil
  | cons l M2 ih =>
    intro hall
    cases M2 with
    | nil => exact hall l (by simp)
    | cons b M3 =>
      rw [show joinNl (l :: b :: M3) = l ++ 0x0A :: joinNl (b :: M3) from rfl]
      refine List.Chain'.append (hall l (by simp)) ?_ ?_
      · rw [List.chain'_cons']
        refine ⟨?_, ih fun x hx => hall x (List.mem_cons_of_mem _ hx)⟩
        intro y _ hpair
        simp at hpair
      · intro x _ y hy hpair
        simp only [List.head?_cons, Option.mem_def, Option.some.injEq] at hy
        rw [← hy] at hpair
        simp at hpair

/-- Units of `perLineTrim s` come from `s` or are the separator. -/
theorem mem_perLineTrim {c : Nat} {s : JStr} (h : c ∈ P2.perLineTrim s) :
    c = 0x0A ∨ c ∈ s := by
  unfold P2.perLineTrim at h
  rcases mem_joinNl h with h1 | ⟨l, hl, hc⟩
  · exact Or.inl h1
  · obtain ⟨l0, hl0, rfl⟩ := List.mem_map.mp hl
    exact Or.inr ((memSplitNlWithin s l0 hl0).sublist.subset (mem_trimJs hc))

/-- A string that is clean of removable units, has no space-tab runs, and
is fixed by both trims is a fixpoint of the sanitizer's post-NFC chain. -/
theorem sanitizeTail_fix {y : JStr}
    (h1 : ∀ c ∈ y, P2.isSurrogateU c = false ∧ P2.isZwU c = false ∧
      P2.dashMoji c = false)
    (h2 : ∀ c ∈ y, P2.isSpTab c = false ∨ c = 0x20)
    (h3 : y.Chain' fun x z => ¬(x = 0x20 ∧ z = 0x20))
    (h4 : P2.perLineTrim y = y) (h5 : trimJs y = y) :
    P2.sanitizeTail y = y := by
  unfold P2.sanitizeTail
  rw [show removeClass P2.isSurrogateU y = y from
    List.filter_eq_self.mpr fun c hc => by simp [(h1 c hc).1]]
  rw [show removeClass P2.isZwU y = y from
    List.filter_eq_self.mpr fun c hc => by simp [(h1 c hc).2.1]]
  rw [show replClass P2.dashMoji 0x2D y = y from by
    unfold replClass
    calc y.map (fun c => if P2.dashMoji c then 0x2D else c) = y.map (fun c => c) :=
      List.map_congr_left fun c hc => by simp [(h1 c hc).2.2]
    _ = y := List.map_id' y]
  rw [show collapseClass P2.isSpTab y = y from
    collapseGo_eq_self_aux y false h2 h3 (by simp)]
  rw [h4, h5]

/-- The output of the sanitizer's post-NFC chain satisfies all the
fixpoint conditions of `sanitizeTail_fix`. -/
theorem sanitizeTail_props (s : JStr) :
    (∀ c ∈ P2.sanitizeTail s, P2.isSurrogateU c = false ∧ P2.isZwU c = false ∧
      P2.dashMoji c = false) ∧
    (∀ c ∈ P2.sanitizeTail s, P2.isSpTab c = false ∨ c = 0x20) ∧
    ((P2.sanitizeTail s).Chain' fun x z => ¬(x = 0x20 ∧ z = 0x20)) ∧
    P2.perLineTrim (P2.sanitizeTail s) = P2.sanitizeTail s ∧
    trimJs (P2.sanitizeTail s) = P2.sanitizeTail s := by
  have hu : ∀ c ∈ replClass P2.dashMoji 0x2D (removeClass P2.isZwU
      (removeClass P2.isSurrogateU s)),
      P2.isSurrogateU c = false ∧ P2.isZwU c = false ∧ P2.dashMoji c = false := by
    intro c hc
    obtain ⟨d, hd, rfl⟩ := List.mem_map.mp hc
    obtain ⟨hd1, hd2⟩ := List.mem_filter.mp hd
    obtain ⟨_, hd3⟩ := List.mem_filter.mp hd1
    by_cases hdash : P2.dashMoji d
    · rw [if_pos hdash]
      exact ⟨by decide, by decide, by decide⟩
    · rw [if_neg hdash]
      exact ⟨by simpa using hd3, by simpa using hd2, by simpa using hdash⟩
  set u : JStr := replClass P2.dashMoji 0x2D (removeClass P2.isZwU
    (removeClass P2.isSurrogateU s)) with hudef
  set v : JStr := collapseClass P2.isSpTab u with hvdef
  have hw : P2.sanitizeTail s = trimJs (P2.perLineTrim v) := rfl
  set M0 : List JStr := (splitNl v).map trimJs with hM0def
  have hwj : P2.perLineTrim v = joinNl M0 := rfl
  have htrM0 : ∀ l ∈ M0, trimJs l = l := by
    intro l hl
    obtain ⟨l0, _, rfl⟩ := List.mem_map.mp hl
    exact trimJs_idem l0
  have hnoM0 : ∀ l ∈ M0, (0x0A : Nat) ∉ l := by
    intro l hl hmem
    obtain ⟨l0, hl0, rfl⟩ := List.mem_map.mp hl
    exact noNl_of_mem_splitNl v l0 hl0 (mem_trimJs hmem)
  set M1 : List JStr := M0.dropWhile (fun l => l.isEmpty) with hM1def
  set M2 : List JStr := List.rdropWhile (fun l => l.isEmpty) M1 with hM2def
  have hM1mem : ∀ l ∈ M1, l ∈ M0 := fun l hl =>
    (List.dropWhile_suffix _).sublist.subset hl
  have hM2mem : ∀ l ∈ M2, l ∈ M0 := fun l hl =>
    hM1mem l ((List.rdropWhile_prefix _ _).sublist.subset hl)
  have hy2 : P2.sanitizeTail s = joinNl M2 := by
    rw [hw, hwj]
    unfold trimJs
    rw [dropWhile_joinNl_trimmed M0 htrM0, ← hM1def]
    rw [rdropWhile_joinNl_trimmed M1 fun l hl => htrM0 l (hM1mem l hl), ← hM2def]
  have hchain_v : v.Chain' fun x z => ¬(x = 0x20 ∧ z = 0x20) :=
    (collapseGo_chain u false).1
  have hclean : ∀ c ∈ P2.sanitizeTail s, P2.isSurrogateU c = false ∧
      P2.isZwU c = false ∧ P2.dashMoji c = false := by
    intro c hc
    rw [hw] at hc
    rcases mem_perLineTrim (mem_trimJs hc) with rfl | hv2
    · exact ⟨by decide, by decide, by decide⟩
    · rcases collapseGo_mem_src u false c hv2 with rfl | hcu
      · exact ⟨by decide, by decide, by decide⟩
      · exact hu c hcu
  have hsp : ∀ c ∈ P2.sanitizeTail s, P2.isSpTab c = false ∨ c = 0x20 := by
    intro c hc
    rw [hw] at hc
    rcases mem_perLineTrim (mem_trimJs hc) with rfl | hv2
    · exact Or.inl (by decide)
    · exact collapseGo_mem u false c hv2
  have hch : (P2.sanitizeTail s).Chain' fun x z => ¬(x = 0x20 ∧ z = 0x20) := by
    rw [hw]
    refine chainWithin ?_ (trimJsWithin _)
    rw [hwj]
    refine chain'_joinNl_sp M0 ?_
    intro l hl
    obtain ⟨l0, hl0, rfl⟩ := List.mem_map.mp hl
    exact chainWithin (chainWithin hchain_v (memSplitNlWithin v l0 hl0)) (trimJsWithin l0)
  have hplt : P2.perLineTrim (P2.sanitizeTail s) = P2.sanitizeTail s := by
    rw [hy2]
    cases hM2 : M2 with
    | nil => rfl
    | cons m M3 =>
      unfold P2.perLineTrim
      rw [splitNl_joinNl (m :: M3) (by simp)
        (fun l hl => hnoM0 l (hM2mem l (hM2.symm ▸ hl)))]
      rw [show (m :: M3).map trimJs = (m :: M3).map (fun l => l) from
        List.map_congr_left fun l hl => htrM0 l (hM2mem l (hM2.symm ▸ hl))]
      rw [List.map_id' (m :: M3)]
  have htr : trimJs (P2.sanitizeTail s) = P2.sanitizeTail s := by
    rw [hw]
    exact trimJs_idem _
  exact ⟨hclean, hsp, hch, hplt, htr⟩

/-- The sanitizer's post-NFC chain is idempotent. -/
theorem sanitizeTail_idem (s : JStr) :
    P2.sanitizeTail (P2.sanitizeTail s) = P2.sanitizeTail s := by
  obtain ⟨h1, h2, h3, h4, h5⟩ := sanitizeTail_props s
  exact sanitizeTail_fix h1 h2 h3 h4 h5

/-- Counterexample to C6: `sanitizePdfText` is not idempotent.  On the
input U+0065 U+200D U+0301 (an `e`, a removable zero-width joiner, and a
combining acute accent) the first pass removes the joiner, exposing the
pair `e` + U+0301, and the second pass's NFC step composes it to `é` —
so the second application changes the string again. -/
theorem c6_sanitize_not_idempotent :
    P2.sanitizePdfText (P2.sanitizePdfText [0x65, 0x200D, 0x301]) ≠
      P2.sanitizePdfText [0x65, 0x200D, 0x301] ∧
    P2.sanitizePdfText [0x65, 0x200D, 0x301] = [0x65, 0x301] ∧
    P2.sanitizePdfText [0x65, 0x301] = [0xE9] := by
  exact ⟨by decide, by decide, by decide⟩

/-- C6 (amended): `sanitizePdfText` is total — a plain function returning a
(possibly empty) string for every input — and it is idempotent on every
input whose sanitized output is already NFC-normal; in general the removal
of a zero-width unit can expose a composable base-and-mark pair that only
the second pass's NFC step composes, and that step is the sole source of
non-idempotence. -/
theorem c6_sanitize_idem_of_nfc_fixed (x : JStr)
    (h : P2.nfc (P2.sanitizePdfText x) = P2.sanitizePdfText x) :
    P2.sanitizePdfText (P2.sanitizePdfText x) = P2.sanitizePdfText x := by
  unfold P2.sanitizePdfText at h ⊢
  by_cases hx : x.isEmpty
  · simp [hx]
  · rw [if_neg hx] at h ⊢
    by_cases hy : (P2.sanitizeSteps x).isEmpty
    · rw [if_pos hy]
      cases hsx : P2.sanitizeSteps x with
      | nil => rfl
      | cons a r => rw [hsx] at hy; simp at hy
    · rw [if_neg hy]
      unfold P2.sanitizeSteps at h ⊢
      rw [h]
      exact sanitizeTail_idem _

/-- Witness for the amended C6: an ordinary ASCII input has NFC-fixed
output, and on it the sanitizer is idempotent. -/
theorem c6_sanitize_idem_witness :
    P2.nfc (P2.sanitizePdfText (jstr "Coconut - 25 trees")) =
      P2.sanitizePdfText (jstr "Coconut - 25 trees") ∧
    P2.sanitizePdfText (P2.sanitizePdfText (jstr "Coconut - 25 trees")) =
      P2.sanitizePdfText (jstr "Coconut - 25 trees") :=
  ⟨by decide, c6_sanitize_idem_of_nfc_fixed _ (by decide)⟩
